import Mathlib

/-!
Verification of the ingestion-and-execution core of the `simple_git_cicd`
dispatcher against its natural-language specification.  Each definition is a
shallow embedding of one Rust item of the repository (the source file and
item are named in its doc comment); timestamps are modelled as integer
milliseconds since the epoch, byte strings as lists of naturals below 256.
-/

namespace SimpleGitCicd

/-! ## Job data model (src/src/job.rs) -/

/-- Embeds `JobStatus` from src/src/job.rs. -/
inductive JobStatus where
  | queued
  | running
  | success
  | failed
deriving DecidableEq, Repr

/-- Embeds `MAX_OUTPUT_SIZE` from src/src/job.rs (1 MiB). -/
def MAX_OUTPUT_SIZE : Nat := 1024 * 1024

/-! ## Persisted job rows and `SqlJobStore` operations (src/src/db/store.rs)

A row of the `jobs` table.  `started_at` is stored by `create_job` as the
RFC-3339 rendering of a valid datetime, so reading it back parses; the row
therefore carries the parsed instant directly, as epoch milliseconds. -/

/-- A persisted row of the `jobs` table (src/src/db/store.rs, `JobRow`). -/
structure JobRow where
  id : String
  project_name : String
  branch : String
  status : JobStatus
  commit_sha : Option String
  commit_message : Option String
  commit_author_name : Option String
  started_at : Int
  completed_at : Option Int
  output : Option String
  output_truncated : Bool
  error : Option String
  duration_ms : Option Int
deriving DecidableEq, Repr

/-- Embeds `SqlJobStore::create_job` (src/src/db/store.rs): the INSERT sets
status, identity and webhook columns and leaves `completed_at`, `output`,
`error`, `duration_ms` and `output_truncated` at their NULL defaults
(`output_truncated` reads back as `false` through `JobRow::from`). -/
def createJob (id project_name branch : String) (commit_sha commit_message
    commit_author_name : Option String) (status : JobStatus)
    (started_at : Int) : JobRow :=
  { id := id
    project_name := project_name
    branch := branch
    status := status
    commit_sha := commit_sha
    commit_message := commit_message
    commit_author_name := commit_author_name
    started_at := started_at
    completed_at := none
    output := none
    output_truncated := false
    error := none
    duration_ms := none }

/-- Embeds `SqlJobStore::complete_job` (src/src/db/store.rs lines 127-175).
It fetches the row's `started_at`, computes
`duration_ms = (completed_at - started_at).num_milliseconds()` (the
`unwrap_or(0)` branch only fires when the stored string fails to parse,
which `create_job` never produces), and updates `status`, `output`,
`error`, `completed_at` and `duration_ms` together.  The UPDATE touches no
other column: in particular the supplied output is stored verbatim and
`output_truncated` is left as it was. -/
def completeJob (row : JobRow) (status : JobStatus) (output error : Option String)
    (completed_at : Int) : JobRow :=
  { row with
    status := status
    output := output
    error := error
    completed_at := some completed_at
    duration_ms := some (completed_at - row.started_at) }

/-- Embeds `Job::mark_success` (src/src/job.rs lines 61-73), the in-memory
path: outputs longer than `MAX_OUTPUT_SIZE` bytes are truncated to the
first `MAX_OUTPUT_SIZE` bytes and get the tail `"\n... (output truncated)"`;
the flag is set only then.  (Byte strings are lists of naturals; the Rust
tail is the UTF-8 of this ASCII marker.)  This is the truncation the spec
describes; `complete_job` above never calls it. -/
def markSuccessOutput (output : List Nat) : List Nat × Bool :=
  if output.length > MAX_OUTPUT_SIZE then
    (output.take MAX_OUTPUT_SIZE ++ ("\n... (output truncated)".data.map Char.toNat), true)
  else
    (output, false)

/-! ## Error type (src/src/error.rs) -/

/-- Embeds the two `CicdError` variants the pipeline can return
(src/src/error.rs). -/
inductive CicdError where
  | gitOperationFailed (operation : String) (message : String)
  | scriptExecutionFailed (message : String)
deriving DecidableEq, Repr

/-- The `thiserror` display of `CicdError` (src/src/error.rs): this is what
`e.to_string()` yields in the webhook task. -/
def CicdError.display : CicdError → String
  | .gitOperationFailed operation message =>
      "Git operation failed: " ++ operation ++ "\n" ++ message
  | .scriptExecutionFailed message =>
      "Script execution failed: " ++ message

/-- Embeds the completion match of the spawned webhook task
(src/src/api/webhook.rs lines 424-455): on `Ok(output)` the job is
completed `Success` with `output = Some(output)`, `error = None`; on
`Err(e)` it is completed `Failed` with `output = None`,
`error = Some(e.to_string())`. -/
def finishJob (row : JobRow) (result : Except CicdError String)
    (completed_at : Int) : JobRow :=
  match result with
  | .ok output => completeJob row .success (some output) none completed_at
  | .error e => completeJob row .failed none (some e.display) completed_at

/-! ## Project configuration (src/src/lib.rs) -/

/-- Embeds `ProjectConfig` (src/src/lib.rs); the `HashMap` of branch
overrides is modelled as an association list. -/
structure ProjectConfig where
  name : String
  repo_path : String
  branches : List String
  run_script : String
  branch_scripts : Option (List (String × String))
  with_webhook_secret : Option Bool
  webhook_secret : Option String
  reset_to_remote : Option Bool
  pre_script : Option String
  post_script : Option String
  post_success_script : Option String
  post_failure_script : Option String
  post_always_script : Option String
deriving DecidableEq, Repr

/-- Embeds `ProjectConfig::get_run_script_for_branch` (src/src/lib.rs). -/
def getRunScriptForBranch (p : ProjectConfig) (branch : String) : String :=
  match p.branch_scripts.bind (fun scripts => scripts.lookup branch) with
  | some s => s
  | none => p.run_script

/-- Embeds `ProjectConfig::should_reset_to_remote` (src/src/lib.rs). -/
def shouldResetToRemote (p : ProjectConfig) : Bool :=
  p.reset_to_remote.getD true

/-! ## Subprocess model and `run_script_with_env` (src/src/utils.rs)

A subprocess either fails to spawn (the OS error text) or runs to an exit
status; `code = none` models termination by signal
(`ExitStatus::code() == None`, so `code().unwrap_or(-1)` is `-1` and
`status.success()` is false). -/

/-- Exit state of a subprocess that did spawn. -/
structure ProcResult where
  stdout : String
  stderr : String
  code : Option Int
deriving DecidableEq, Repr

/-- Outcome of attempting to launch one subprocess. -/
inductive ProcOutcome where
  | spawnFail (osError : String)
  | ran (r : ProcResult)
deriving DecidableEq, Repr

/-- `output.status.code().unwrap_or(-1)` (src/src/utils.rs). -/
def procExitCode (r : ProcResult) : Int :=
  r.code.getD (-1)

/-- `output.status.success()`: zero exit status. -/
def procSuccess (r : ProcResult) : Bool :=
  r.code == some 0

/-- Accumulating tokeniser over the characters: whitespace separates
maximal non-empty runs. -/
def splitWsAux : List Char → List Char → List String
  | [], acc => if acc = [] then [] else [String.mk acc.reverse]
  | c :: cs, acc =>
      if c.isWhitespace then
        (if acc = [] then [] else [String.mk acc.reverse]) ++ splitWsAux cs []
      else splitWsAux cs (c :: acc)

/-- The whitespace tokenisation `script.split_whitespace()` used by
`run_script_with_env` (src/src/utils.rs): the maximal runs of
non-whitespace characters, in order. -/
def splitWhitespaceTokens (s : String) : List String :=
  splitWsAux s.data []

/-- The `full_command` string `run_script_with_env` rebuilds from the
tokens (command and arguments joined by single spaces). -/
def fullCommand (script : String) : String :=
  " ".intercalate (splitWhitespaceTokens script)

/-- Embeds `ScriptResult` (src/src/utils.rs). -/
structure ScriptResult where
  output : String
  exitCode : Int
deriving DecidableEq, Repr

/-- The combined stdout/stderr a script step captures
(src/src/utils.rs lines 254-259): stdout, then a newline and stderr when
stderr is non-empty. -/
def scriptCombinedOutput (r : ProcResult) : String :=
  if r.stderr = "" then r.stdout else r.stdout ++ "\n" ++ r.stderr

/-- Embeds `run_script_with_env` (src/src/utils.rs lines 183-276) as a
function of the script text and the subprocess outcome.  The environment
injection has no bearing on the returned value; the extra variable passed
to post hooks is recorded on the step block instead (see `scriptStep`). -/
def runScriptWithEnv (script : String) (po : ProcOutcome) :
    Except CicdError ScriptResult :=
  if splitWhitespaceTokens script = [] then
    .error (.scriptExecutionFailed "Script configuration is empty")
  else
    match po with
    | .spawnFail e =>
        .error (.scriptExecutionFailed
          ("Failed to start script '" ++ fullCommand script ++ "': " ++ e ++
           ". Ensure the command exists and is executable."))
    | .ran r =>
        let combined := scriptCombinedOutput r
        if procSuccess r then
          .ok ⟨combined, procExitCode r⟩
        else
          .error (.scriptExecutionFailed
            ("Script '" ++ fullCommand script ++ "' failed with exit code " ++
             toString (procExitCode r) ++ ".\nOutput: " ++ combined.trim))

/-! ## Pipeline step blocks (src/src/utils.rs, `PipelineLogger` and
`run_job_pipeline`)

Every stage of `run_job_pipeline` calls `start_step` exactly once
(inserting a `running` row with the next sequence number) and then, unless
the subprocess failed to spawn in a git stage (where the `?` on
`.output().await` returns before any finalisation), finalises that row with
`complete_step` or `fail_step`.  A `Block` records one stage: its log type
and command, its finalisation (`none` when the row is left `running`), and
the value of `CICD_MAIN_SCRIPT_EXIT_CODE` passed to the subprocess (`none`
for git, pre and main steps, `some v` for post hooks). -/

/-- The finalisation `update_log` writes for one step. -/
structure FinishInfo where
  status : String
  output : String
  exitCode : Int
deriving DecidableEq, Repr

/-- One pipeline stage as emitted by `run_job_pipeline`. -/
structure Block where
  logType : String
  command : Option String
  fin : Option FinishInfo
  mainExitEnv : Option String
deriving DecidableEq, Repr

/-- Static data of one git stage: log type, displayed command, the
`operation` and message suffix used for the spawn-failure error, and those
used for the nonzero-exit error (src/src/utils.rs lines 296-465). -/
structure GitStepSpec where
  logType : String
  command : String
  opSpawn : String
  spawnSuffix : String
  opFail : String
  failSuffix : String

/-- One git stage of `run_job_pipeline`: output is
`format!("{}{}", stdout, stderr)`; success finalises the row with exit code
literal `0`; nonzero exit finalises it `failed` with
`status.code().unwrap_or(-1)`; a spawn failure leaves the row unfinalised
(`?` fires before `fail_step`). -/
def gitStep (spec : GitStepSpec) (po : ProcOutcome) :
    Block × Except CicdError String :=
  match po with
  | .spawnFail e =>
      (⟨spec.logType, some spec.command, none, none⟩,
       .error (.gitOperationFailed spec.opSpawn
         ("Failed to start git process: " ++ e ++ spec.spawnSuffix)))
  | .ran r =>
      let out := r.stdout ++ r.stderr
      if procSuccess r then
        (⟨spec.logType, some spec.command, some ⟨"success", out, 0⟩, none⟩, .ok out)
      else
        (⟨spec.logType, some spec.command, some ⟨"failed", out, procExitCode r⟩, none⟩,
         .error (.gitOperationFailed spec.opFail (out.trim ++ spec.failSuffix)))

/-- `git fetch` stage data (src/src/utils.rs lines 296-336). -/
def fetchSpec : GitStepSpec :=
  ⟨"git_fetch", "git fetch", "git fetch",
   ". Ensure git is installed and accessible.",
   "git fetch", ". Check network connectivity and repository access."⟩

/-- `git reset --hard origin/<branch>` stage data (lines 339-380). -/
def resetSpec (branch : String) : GitStepSpec :=
  ⟨"git_reset", "git reset --hard origin/" ++ branch, "git reset --hard", "",
   "git reset --hard origin/" ++ branch,
   ". Ensure the target 'origin/" ++ branch ++ "' exists."⟩

/-- `git switch <branch>` stage data (lines 385-425). -/
def switchSpec (branch : String) : GitStepSpec :=
  ⟨"git_switch", "git switch " ++ branch, "git switch", "",
   "git switch " ++ branch,
   ". Ensure branch '" ++ branch ++ "' exists remotely."⟩

/-- `git pull` stage data (lines 427-464). -/
def pullSpec : GitStepSpec :=
  ⟨"git_pull", "git pull", "git pull", "",
   "git pull", ". Ensure there are no local changes or merge conflicts."⟩

/-- One script stage (pre, main or a hook): `start_step(log_type,
Some(script))`, then `run_script_with_env`; success finalises with the
captured output and actual exit code, failure finalises with
`e.to_string()` and exit code literal `1` (`fail_step(s, t, e.to_string(), 1)`
for pre and hooks, and `main_exit_code`, which is also `1` on `Err`, for
main).  `envVal` is the `CICD_MAIN_SCRIPT_EXIT_CODE` value injected into
the subprocess environment (post hooks only). -/
def scriptStep (logType script : String) (po : ProcOutcome)
    (envVal : Option String) : Block × Except CicdError ScriptResult :=
  match runScriptWithEnv script po with
  | .ok r =>
      (⟨logType, some script, some ⟨"success", r.output, r.exitCode⟩, envVal⟩, .ok r)
  | .error e =>
      (⟨logType, some script, some ⟨"failed", e.display, 1⟩, envVal⟩, .error e)

/-- The subprocess outcomes of one pipeline run: one entry per stage the
run might launch. -/
structure StepOutcomes where
  fetch : ProcOutcome
  reset : ProcOutcome
  switch : ProcOutcome
  pull : ProcOutcome
  pre : ProcOutcome
  main : ProcOutcome
  postSuccess : ProcOutcome
  postFailure : ProcOutcome
  post : ProcOutcome
  postAlways : ProcOutcome
deriving Repr

/-- Runs one post hook (step 5 or 6 of `run_job_pipeline`): the block plus
the output contribution to `all_output` (empty when the hook failed, since
failures only log). -/
def runHook (logType script : String) (po : ProcOutcome) (envVal : String) :
    Block × String :=
  match scriptStep logType script po (some envVal) with
  | (b, .ok r) => (b, r.output)
  | (b, .error _) => (b, "")

/-- Step 5 of `run_job_pipeline` (src/src/utils.rs lines 508-584): on main
success `post_success_script` if configured, else `post_script` if
configured; on main failure `post_failure_script` if configured, else
`post_script` if configured; never more than one. -/
def postPhase (p : ProjectConfig) (o : StepOutcomes) (mainOk : Bool)
    (envVal : String) : List Block × String :=
  if mainOk then
    match p.post_success_script with
    | some script =>
        let (b, out) := runHook "post_success" script o.postSuccess envVal
        ([b], out)
    | none =>
        match p.post_script with
        | some script =>
            let (b, out) := runHook "post_script" script o.post envVal
            ([b], out)
        | none => ([], "")
  else
    match p.post_failure_script with
    | some script =>
        let (b, out) := runHook "post_failure" script o.postFailure envVal
        ([b], out)
    | none =>
        match p.post_script with
        | some script =>
            let (b, out) := runHook "post_script" script o.post envVal
            ([b], out)
        | none => ([], "")

/-- Step 6 of `run_job_pipeline` (lines 586-603): `post_always_script` if
configured, failures logged and not propagated. -/
def alwaysPhase (p : ProjectConfig) (o : StepOutcomes) (envVal : String) :
    List Block × String :=
  match p.post_always_script with
  | some script =>
      let (b, out) := runHook "post_always" script o.postAlways envVal
      ([b], out)
  | none => ([], "")

/-- Step 2 of `run_job_pipeline`: `git reset --hard` when
`should_reset_to_remote`, else `git switch` then `git pull`; the `Except`
carries this stage's contribution to `all_output`. -/
def gitUpdateStage (p : ProjectConfig) (branch : String) (o : StepOutcomes) :
    List Block × Except CicdError String :=
  if shouldResetToRemote p then
    let (b, r) := gitStep (resetSpec branch) o.reset
    ([b], r)
  else
    let (bSwitch, rSwitch) := gitStep (switchSpec branch) o.switch
    match rSwitch with
    | .error e => ([bSwitch], .error e)
    | .ok outSwitch =>
        let (bPull, rPull) := gitStep pullSpec o.pull
        match rPull with
        | .error e => ([bSwitch, bPull], .error e)
        | .ok outPull => ([bSwitch, bPull], .ok (outSwitch ++ outPull))

/-- Step 3 of `run_job_pipeline` (lines 467-485): the pre script when
configured; fatal on failure. -/
def preStage (p : ProjectConfig) (o : StepOutcomes) :
    List Block × Except CicdError String :=
  match p.pre_script with
  | none => ([], .ok "")
  | some script =>
      match scriptStep "pre_script" script o.pre none with
      | (b, .ok r) => ([b], .ok r.output)
      | (b, .error e) => ([b], .error e)

/-- Steps 4-7 of `run_job_pipeline` (lines 487-607): the main script (the
branch override when present), then the post hooks with
`CICD_MAIN_SCRIPT_EXIT_CODE` set to `main_exit_code`, which is
`main_result.as_ref().map(|r| r.exit_code).unwrap_or(1)`; the return value
is `main_result.map(|_| all_output)`. -/
def mainAndAfter (p : ProjectConfig) (branch : String) (o : StepOutcomes)
    (acc : String) : List Block × Except CicdError String :=
  let script := getRunScriptForBranch p branch
  let (bMain, rMain) := scriptStep "main_script" script o.main none
  let mainExit : Int := match rMain with | .ok r => r.exitCode | .error _ => 1
  let envVal := toString mainExit
  let mainOk := match rMain with | .ok _ => true | .error _ => false
  let acc2 := match rMain with | .ok r => acc ++ r.output | .error _ => acc
  let (postBlocks, postOut) := postPhase p o mainOk envVal
  let (alwaysBlocks, alwaysOut) := alwaysPhase p o envVal
  (bMain :: postBlocks ++ alwaysBlocks,
   match rMain with
   | .ok _ => .ok (acc2 ++ postOut ++ alwaysOut)
   | .error e => .error e)

/-- Embeds `run_job_pipeline` (src/src/utils.rs lines 280-607): the emitted
step blocks in order, and the returned composite output or fatal error. -/
def runJobPipeline (p : ProjectConfig) (branch : String) (o : StepOutcomes) :
    List Block × Except CicdError String :=
  let (bFetch, rFetch) := gitStep fetchSpec o.fetch
  match rFetch with
  | .error e => ([bFetch], .error e)
  | .ok outFetch =>
      let (updateBlocks, rUpdate) := gitUpdateStage p branch o
      match rUpdate with
      | .error e => (bFetch :: updateBlocks, .error e)
      | .ok outUpdate =>
          let (preBlocks, rPre) := preStage p o
          match rPre with
          | .error e => (bFetch :: updateBlocks ++ preBlocks, .error e)
          | .ok outPre =>
              let (tailBlocks, res) :=
                mainAndAfter p branch o (outFetch ++ outUpdate ++ outPre)
              (bFetch :: updateBlocks ++ preBlocks ++ tailBlocks, res)

/-! ## Persisted step rows and their evolution

`PipelineLogger` (src/src/utils.rs lines 87-179) keeps a per-job counter
starting at 0; `start_step` pre-increments it and inserts a `running` row
with that sequence; `complete_step`/`fail_step` update that row in place.
The store state is the list of this job's rows in insertion order, most
recent first. -/

/-- A persisted row of the `job_logs` table, restricted to the columns the
claims speak about (timestamps and durations omitted). -/
structure LogRow where
  job_id : String
  sequence : Int
  log_type : String
  command : Option String
  status : String
  exit_code : Option Int
  output : Option String
deriving DecidableEq, Repr

/-- One store mutation of `PipelineLogger`: `start_step` inserts a
`running` row with the next sequence; the finish updates the row the
preceding `start_step` inserted. -/
inductive LogOp where
  | start (logType : String) (command : Option String)
  | finish (f : FinishInfo)
deriving DecidableEq, Repr

/-- The store mutations one block performs: its insert, then its
finalisation when it has one. -/
def opsOfBlock (b : Block) : List LogOp :=
  .start b.logType b.command ::
    (match b.fin with
     | some f => [.finish f]
     | none => [])

/-- The store mutations of a whole run. -/
def opsOfBlocks (bs : List Block) : List LogOp :=
  bs.flatMap opsOfBlock

/-- Applies one mutation to the job's rows (most recent first):
`start_step` inserts sequence `rows.length + 1` in `running` state; a
finish rewrites the most recent row's completion columns. -/
def applyOp (jobId : String) (rows : List LogRow) : LogOp → List LogRow
  | .start logType command =>
      ⟨jobId, (rows.length : Int) + 1, logType, command, "running", none, none⟩ :: rows
  | .finish f =>
      match rows with
      | [] => []
      | r :: rest =>
          { r with status := f.status, exit_code := some f.exitCode,
                   output := some f.output } :: rest

/-- The rows after a sequence of mutations. -/
def applyOps (jobId : String) (rows : List LogRow) (ops : List LogOp) :
    List LogRow :=
  ops.foldl (applyOp jobId) rows

/-- How many of the job's rows are in `running` status. -/
def countRunning (rows : List LogRow) : Nat :=
  (rows.filter (fun r => r.status = "running")).length

/-! ## Dry-run log emission (src/src/api/webhook.rs lines 234-352)

The dry-run branch of the spawned webhook task inserts one `skipped` row
per step it would have attempted, numbering them with a local counter that
starts at `0` (`let mut sequence = 0;` and the first row is inserted before
the first increment). -/

/-- One simulated dry-run row. -/
def dryRunRow (jobId : String) (seq : Int) (logType command : String) : LogRow :=
  ⟨jobId, seq, logType, some command, "skipped", some 0, some "[DRY_RUN] Skipped"⟩

/-- Embeds the dry-run log emission of `handle_webhook`
(src/src/api/webhook.rs lines 240-352): git fetch, git reset, the pre
script when configured, the main script, then `post_success_script` and
`post_always_script` when configured, with sequences 0, 1, 2, ... -/
def dryRunLogs (p : ProjectConfig) (jobId branch : String) : List LogRow :=
  let mainScript := getRunScriptForBranch p branch
  let preRows := match p.pre_script with
    | some s => [dryRunRow jobId 2 "pre_script" s]
    | none => []
  let mainSeq : Int := 2 + preRows.length
  let postRows := match p.post_success_script with
    | some s => [dryRunRow jobId (mainSeq + 1) "post_success_script" s]
    | none => []
  let alwaysRows := match p.post_always_script with
    | some s => [dryRunRow jobId (mainSeq + 1 + postRows.length) "post_always_script" s]
    | none => []
  [dryRunRow jobId 0 "git_fetch" "git fetch origin",
   dryRunRow jobId 1 "git_reset" ("git reset --hard origin/" ++ branch)] ++
    preRows ++ [dryRunRow jobId mainSeq "main_script" mainScript] ++
    postRows ++ alwaysRows

/-! ## Webhook signature verification (src/src/utils.rs lines 17-46)

`verify_github_signature` calls into the `hmac`, `sha2` and `hex` crates;
those library functions are embedded here in full: SHA-256 per FIPS 180-4
over naturals reduced mod 2^32, HMAC per RFC 2104 with the SHA-256 block
size 64, and the hex codec of the `hex` crate (decode accepts both cases,
rejects odd length and non-hex characters). -/

/-- Addition of 32-bit words modulo 2^32. -/
def add32 (a b : Nat) : Nat := (a + b) % 4294967296

/-- Right rotation of a 32-bit word by `k` places. -/
def rotr32 (k x : Nat) : Nat := x / 2 ^ k + x % 2 ^ k * 2 ^ (32 - k)

/-- Logical right shift of a 32-bit word. -/
def shr32 (k x : Nat) : Nat := x / 2 ^ k

/-- Bitwise complement of a 32-bit word. -/
def not32 (x : Nat) : Nat := x ^^^ 4294967295

/-- SHA-256 `Ch(e,f,g)`. -/
def sha2Ch (e f g : Nat) : Nat := (e &&& f) ^^^ (not32 e &&& g)

/-- SHA-256 `Maj(a,b,c)`. -/
def sha2Maj (a b c : Nat) : Nat := (a &&& b) ^^^ (a &&& c) ^^^ (b &&& c)

/-- SHA-256 `Σ0`. -/
def bigSigma0 (x : Nat) : Nat := rotr32 2 x ^^^ rotr32 13 x ^^^ rotr32 22 x

/-- SHA-256 `Σ1`. -/
def bigSigma1 (x : Nat) : Nat := rotr32 6 x ^^^ rotr32 11 x ^^^ rotr32 25 x

/-- SHA-256 `σ0`. -/
def smallSigma0 (x : Nat) : Nat := rotr32 7 x ^^^ rotr32 18 x ^^^ shr32 3 x

/-- SHA-256 `σ1`. -/
def smallSigma1 (x : Nat) : Nat := rotr32 17 x ^^^ rotr32 19 x ^^^ shr32 10 x

/-- The SHA-256 round constants. -/
def sha2K : List Nat :=
  [1116352408, 1899447441, 3049323471, 3921009573, 961987163,
   1508970993, 2453635748, 2870763221, 3624381080, 310598401,
   607225278, 1426881987, 1925078388, 2162078206, 2614888103,
   3248222580, 3835390401, 4022224774, 264347078, 604807628,
   770255983, 1249150122, 1555081692, 1996064986, 2554220882,
   2821834349, 2952996808, 3210313671, 3336571891, 3584528711,
   113926993, 338241895, 666307205, 773529912, 1294757372,
   1396182291, 1695183700, 1986661051, 2177026350, 2456956037,
   2730485921, 2820302411, 3259730800, 3345764771, 3516065817,
   3600352804, 4094571909, 275423344, 430227734, 506948616,
   659060556, 883997877, 958139571, 1322822218, 1537002063,
   1747873779, 1955562222, 2024104815, 2227730452, 2361852424,
   2428436474, 2756734187, 3204031479, 3329325298]

/-- The SHA-256 initial hash value. -/
def sha2H0 : List Nat :=
  [1779033703, 3144134277, 1013904242, 2773480762,
   1359893119, 2600822924, 528734635, 1541459225]

/-- Extends sixteen message-schedule words to sixty-four. -/
def buildSchedule (ws : List Nat) : List Nat :=
  (List.range 48).foldl
    (fun acc _ =>
      let n := acc.length
      acc ++ [add32 (add32 (smallSigma1 (acc.getD (n - 2) 0)) (acc.getD (n - 7) 0))
                    (add32 (smallSigma0 (acc.getD (n - 15) 0)) (acc.getD (n - 16) 0))])
    ws

/-- One SHA-256 round on the eight-word working state. -/
def sha2Round (st : List Nat) (k w : Nat) : List Nat :=
  match st with
  | [a, b, c, d, e, f, g, h] =>
      let t1 := add32 h (add32 (bigSigma1 e) (add32 (sha2Ch e f g) (add32 k w)))
      let t2 := add32 (bigSigma0 a) (sha2Maj a b c)
      [add32 t1 t2, a, b, c, add32 d t1, e, f, g]
  | _ => st

/-- Compresses one sixteen-word block into the hash state. -/
def compressBlock (h : List Nat) (block : List Nat) : List Nat :=
  let ws := buildSchedule block
  let st := (sha2K.zip ws).foldl (fun st kw => sha2Round st kw.1 kw.2) h
  h.zipWith add32 st

/-- Big-endian bytes of a 64-bit length. -/
def be64 (n : Nat) : List Nat :=
  [n / 2 ^ 56 % 256, n / 2 ^ 48 % 256, n / 2 ^ 40 % 256, n / 2 ^ 32 % 256,
   n / 2 ^ 24 % 256, n / 2 ^ 16 % 256, n / 2 ^ 8 % 256, n % 256]

/-- SHA-256 padding: a 0x80 byte, zeros to 56 mod 64, the bit length. -/
def sha2Pad (msg : List Nat) : List Nat :=
  msg ++ 0x80 :: List.replicate ((64 - (msg.length + 9) % 64) % 64) 0 ++
    be64 (8 * msg.length)

/-- Packs bytes into big-endian 32-bit words. -/
def bytesToWords : List Nat → List Nat
  | b0 :: b1 :: b2 :: b3 :: rest => (((b0 * 256 + b1) * 256 + b2) * 256 + b3) :: bytesToWords rest
  | _ => []

/-- Splits a word list into sixteen-word blocks. -/
def chunk16 (ws : List Nat) : List (List Nat) :=
  if h : ws.isEmpty then [] else ws.take 16 :: chunk16 (ws.drop 16)
termination_by ws.length
decreasing_by
  simp only [List.isEmpty_iff] at h
  have : 0 < ws.length := List.length_pos.mpr h
  simp [List.length_drop]
  omega

/-- The four big-endian bytes of a 32-bit word. -/
def wordBytes4 (w : Nat) : List Nat :=
  [w / 2 ^ 24 % 256, w / 2 ^ 16 % 256, w / 2 ^ 8 % 256, w % 256]

/-- SHA-256 of a byte string (FIPS 180-4), as 32 bytes. -/
def sha256 (msg : List Nat) : List Nat :=
  ((chunk16 (bytesToWords (sha2Pad msg))).foldl compressBlock sha2H0).flatMap wordBytes4

/-- HMAC-SHA256 (RFC 2104) with block size 64; `Hmac::new_from_slice`
accepts keys of every length, so there is no error case. -/
def hmacSha256 (key msg : List Nat) : List Nat :=
  let k0 := if key.length > 64 then sha256 key else key
  let kPad := k0 ++ List.replicate (64 - k0.length) 0
  let ipad := kPad.map (fun b => b ^^^ 0x36)
  let opad := kPad.map (fun b => b ^^^ 0x5c)
  sha256 (opad ++ sha256 (ipad ++ msg))

/-- Lowercase hex digit of a value below 16, as the `hex` crate encodes. -/
def hexDigitChar (n : Nat) : Char :=
  if n < 10 then Char.ofNat (48 + n) else Char.ofNat (87 + n)

/-- Lowercase hex encoding of a byte string (`hex::encode`). -/
def hexEncodeBytes (bs : List Nat) : List Char :=
  bs.flatMap (fun b => [hexDigitChar (b / 16), hexDigitChar (b % 16)])

/-- Value of one hex character; both cases accepted, as in `hex::decode`. -/
def hexCharVal (c : Char) : Option Nat :=
  if 48 ≤ c.toNat ∧ c.toNat ≤ 57 then some (c.toNat - 48)
  else if 97 ≤ c.toNat ∧ c.toNat ≤ 102 then some (c.toNat - 87)
  else if 65 ≤ c.toNat ∧ c.toNat ≤ 70 then some (c.toNat - 55)
  else none

/-- `hex::decode` of the remainder of the header: pairs of hex characters;
odd length or any non-hex character fails. -/
def hexDecodeChars : List Char → Option (List Nat)
  | [] => some []
  | [_] => none
  | c1 :: c2 :: rest =>
      match hexCharVal c1, hexCharVal c2, hexDecodeChars rest with
      | some hi, some lo, some bs => some ((hi * 16 + lo) :: bs)
      | _, _, _ => none

/-- UTF-8 encoding of one character (for `str::as_bytes` and byte-indexed
slicing). -/
def utf8EncodeChar (c : Char) : List Nat :=
  let n := c.toNat
  if n < 0x80 then [n]
  else if n < 0x800 then [0xC0 + n / 64, 0x80 + n % 64]
  else if n < 0x10000 then [0xE0 + n / 4096, 0x80 + n / 64 % 64, 0x80 + n % 64]
  else [0xF0 + n / 262144, 0x80 + n / 4096 % 64, 0x80 + n / 64 % 64, 0x80 + n % 64]

/-- `str::as_bytes`: the UTF-8 bytes of a string. -/
def strBytes (s : String) : List Nat :=
  s.data.flatMap utf8EncodeChar

/-- Embeds `verify_github_signature` (src/src/utils.rs lines 17-46): true
iff the header carries the literal `sha256=` and the hex-decoded remainder
equals the freshly computed HMAC-SHA256 of the payload under the secret;
wrong prefix, malformed hex or a short header give false.  The `sha256=`
characters are ASCII, so dropping seven characters after the prefix check
matches the byte slice `&signature_header[7..]`. -/
def verify_github_signature (secret : String) (payload : List Nat)
    (signatureHeader : String) : Bool :=
  if "sha256=".data.isPrefixOf signatureHeader.data then
    match hexDecodeChars (signatureHeader.data.drop 7) with
    | some providedBytes => providedBytes == hmacSha256 (strBytes secret) payload
    | none => false
  else false

/-- The number of element comparisons the final comparison of
`verify_github_signature` performs: the slice equality
`computed_signature.as_slice() == provided_signature_bytes.as_slice()`
(src/src/utils.rs line 39) compares element by element and stops at the
first difference (after the length check). -/
def sliceEqSteps : List Nat → List Nat → Nat
  | x :: xs, y :: ys => 1 + (if x = y then sliceEqSteps xs ys else 0)
  | _, _ => 0

/-! ## Commit-message truncation at intake (src/src/api/webhook.rs
lines 123-134) -/

/-- Embeds `MAX_COMMIT_MSG_LEN`. -/
def MAX_COMMIT_MSG_LEN : Nat := 500

/-- The characters whose UTF-8 encoding is exactly the first `n` bytes of
the remaining text, or `none` when byte index `n` falls inside a
character. -/
def takeBytesInChars : List Char → Nat → Option (List Char)
  | _, 0 => some []
  | [], _ + 1 => none
  | c :: cs, n + 1 =>
      let k := (utf8EncodeChar c).length
      if k ≤ n + 1 then (takeBytesInChars cs (n + 1 - k)).map (fun l => c :: l)
      else none

/-- Embeds the commit-message mapping of `handle_webhook`
(src/src/api/webhook.rs lines 123-134): when `s.len()` (UTF-8 bytes)
exceeds 500 the code formats `&s[..500]` followed by `"... (truncated)"`.
The byte slice `&s[..500]` panics when byte index 500 is not a character
boundary; `none` models that panic. -/
def truncateCommitMessage (s : String) : Option String :=
  if (strBytes s).length > MAX_COMMIT_MSG_LEN then
    match takeBytesInChars s.data MAX_COMMIT_MSG_LEN with
    | some cs => some (String.mk cs ++ "... (truncated)")
    | none => none
  else some s

/-! ## Execution serialisation of webhook tasks
(src/src/api/webhook.rs lines 219-465, src/src/lib.rs `job_execution_lock`)

Each accepted push spawns one background task owning one freshly created
`Queued` job.  A task awaits the single `job_execution_lock`, then marks
its job `Running`, runs (or dry-runs) the pipeline, writes the terminal
status with `complete_job`, and only then drops the guard.  The transition
system below has one state per task: not started, holding the lock, having
marked its job running, and finished (terminal status written, or the
early return when the `Running` update failed). -/

/-- Where one spawned task is in its lifetime. -/
inductive Phase where
  | notStarted
  | holdsLock
  | markedRunning
  | finished
deriving DecidableEq, Repr

/-- One spawned task and the store status of its job. -/
structure TaskState where
  phase : Phase
  job : JobStatus
deriving DecidableEq, Repr

/-- Tasks in spawn order plus the owner of `job_execution_lock`. -/
structure SysState where
  tasks : List TaskState
  lockOwner : Option Nat
deriving DecidableEq, Repr

/-- The store status of task `i`'s job (a default terminal value outside
the range). -/
def jobAt (s : SysState) (i : Nat) : JobStatus :=
  (s.tasks.getD i ⟨.finished, .failed⟩).job

/-- The phase of task `i`. -/
def phaseAt (s : SysState) (i : Nat) : Phase :=
  (s.tasks.getD i ⟨.finished, .failed⟩).phase

/-- The interleaving steps of webhook intake and its spawned tasks:
`spawn` is the handler persisting a `Queued` job and scheduling its task;
`acquire` is `job_execution_lock.lock().await` returning; `markRunning` is
`update_job_status(id, Running)`; `abortEarly` is the early return when
that update errors; `complete` is `complete_job` writing a terminal
status; `release` is the guard dropping at the end of the task. -/
inductive WebhookStep : SysState → SysState → Prop where
  | spawn (s : SysState) :
      WebhookStep s ⟨s.tasks ++ [⟨.notStarted, .queued⟩], s.lockOwner⟩
  | acquire (s : SysState) (i : Nat)
      (hLock : s.lockOwner = none) (hPhase : phaseAt s i = .notStarted) :
      WebhookStep s ⟨s.tasks.set i ⟨.holdsLock, jobAt s i⟩, some i⟩
  | markRunning (s : SysState) (i : Nat)
      (hLock : s.lockOwner = some i) (hPhase : phaseAt s i = .holdsLock) :
      WebhookStep s ⟨s.tasks.set i ⟨.markedRunning, .running⟩, s.lockOwner⟩
  | abortEarly (s : SysState) (i : Nat)
      (hLock : s.lockOwner = some i) (hPhase : phaseAt s i = .holdsLock) :
      WebhookStep s ⟨s.tasks.set i ⟨.finished, jobAt s i⟩, s.lockOwner⟩
  | complete (s : SysState) (i : Nat) (st : JobStatus)
      (hLock : s.lockOwner = some i) (hPhase : phaseAt s i = .markedRunning)
      (hTerminal : st = JobStatus.success ∨ st = JobStatus.failed) :
      WebhookStep s ⟨s.tasks.set i ⟨.finished, st⟩, s.lockOwner⟩
  | release (s : SysState) (i : Nat)
      (hLock : s.lockOwner = some i) (hPhase : phaseAt s i = .finished) :
      WebhookStep s ⟨s.tasks, none⟩

/-- The empty system: no tasks, lock free. -/
def initSys : SysState := ⟨[], none⟩

/-- States the webhook system can reach from empty. -/
inductive Reachable : SysState → Prop where
  | init : Reachable initSys
  | step {s t : SysState} : Reachable s → WebhookStep s t → Reachable t

/-! ## Observers and invariant predicates used by the theorems -/

/-- Whether an `Except` is `Ok`. -/
def exceptOk {ε α : Type} : Except ε α → Bool
  | .ok _ => true
  | .error _ => false

/-- Whether a git stage's subprocess ran and exited zero. -/
def gitOkOutcome : ProcOutcome → Bool
  | .ran r => procSuccess r
  | .spawnFail _ => false

/-- Whether a run gets past the fetch, update and pre stages, so that the
main script is attempted. -/
def mainReached (p : ProjectConfig) (o : StepOutcomes) : Bool :=
  gitOkOutcome o.fetch &&
    (if shouldResetToRemote p then gitOkOutcome o.reset
     else gitOkOutcome o.switch && gitOkOutcome o.pull) &&
    (match p.pre_script with
     | some s => exceptOk (runScriptWithEnv s o.pre)
     | none => true)

/-- Whether a run emits a step of the given log type. -/
def hasBlockType (bs : List Block) (t : String) : Bool :=
  bs.any (fun b => b.logType == t)

/-- Whether a block is one of the four post hooks. -/
def isPostLogType (b : Block) : Bool :=
  b.logType == "post_success" || b.logType == "post_failure" ||
    b.logType == "post_script" || b.logType == "post_always"

/-- The `main_exit_code` value of a run:
`main_result.as_ref().map(|r| r.exit_code).unwrap_or(1)`. -/
def mainExitOf (p : ProjectConfig) (branch : String) (o : StepOutcomes) : Int :=
  match runScriptWithEnv (getRunScriptForBranch p branch) o.main with
  | .ok r => r.exitCode
  | .error _ => 1

/-- The post-hook selection contract of one run: exactly the configured
hook of the winning side runs, `post_script` only as its fallback, and the
run's outcome equals the main script's outcome regardless of hook
failures. -/
def C8PostSelection (p : ProjectConfig) (branch : String) (o : StepOutcomes) : Prop :=
  hasBlockType (runJobPipeline p branch o).1 "post_success" =
    (exceptOk (runScriptWithEnv (getRunScriptForBranch p branch) o.main) &&
      p.post_success_script.isSome) ∧
  hasBlockType (runJobPipeline p branch o).1 "post_failure" =
    (!exceptOk (runScriptWithEnv (getRunScriptForBranch p branch) o.main) &&
      p.post_failure_script.isSome) ∧
  hasBlockType (runJobPipeline p branch o).1 "post_script" =
    ((if exceptOk (runScriptWithEnv (getRunScriptForBranch p branch) o.main)
      then p.post_success_script.isNone else p.post_failure_script.isNone) &&
      p.post_script.isSome) ∧
  (hasBlockType (runJobPipeline p branch o).1 "post_success" &&
    hasBlockType (runJobPipeline p branch o).1 "post_script") = false ∧
  (hasBlockType (runJobPipeline p branch o).1 "post_failure" &&
    hasBlockType (runJobPipeline p branch o).1 "post_script") = false ∧
  exceptOk (runJobPipeline p branch o).2 =
    exceptOk (runScriptWithEnv (getRunScriptForBranch p branch) o.main)

/-- A finalised block whose recorded status is not `running`. -/
def closedBlock (b : Block) : Bool :=
  match b.fin with
  | some f => f.status != "running"
  | none => false

/-- What the last block of a run may look like: finalised with a
non-`running` status, or left `running` by a git spawn failure. -/
def okLastBlock (b : Block) : Bool :=
  match b.fin with
  | some f => f.status != "running"
  | none => true

/-- Every block but possibly the last is finalised, and no finalisation
reuses the `running` status. -/
def blocksOk : List Block → Bool
  | [] => true
  | [b] => okLastBlock b
  | b :: b2 :: rest => closedBlock b && blocksOk (b2 :: rest)

/-- Well-formedness of a store-mutation trace: a finish only for the step
started last (`pending`), never finishing into `running` status. -/
def opsOk : Bool → List LogOp → Bool
  | _, [] => true
  | pending, .start _ _ :: rest => !pending && opsOk true rest
  | pending, .finish f :: rest => pending && (f.status != "running") && opsOk false rest

/-- The descending sequence list `n, n-1, ..., 2, 1`. -/
def descSeqs : Nat → List Int
  | 0 => []
  | n + 1 => ((n : Int) + 1) :: descSeqs n

/-- The rows carry sequences `rows.length, ..., 2, 1` (most recent first):
dense 1-based sequences in insertion order. -/
def seqsOk (rows : List LogRow) : Prop :=
  rows.map LogRow.sequence = descSeqs rows.length

/-- State invariant during a well-formed trace: when a step is pending its
row is the most recent and the only `running` one, otherwise no row is
`running`. -/
def pendInv : Bool → List LogRow → Prop
  | true, rows =>
      ∃ r rest, rows = r :: rest ∧ r.status = "running" ∧ countRunning rest = 0
  | false, rows => countRunning rows = 0

/-- The claim's dense-from-1 property of a row list in insertion order. -/
def seqsDenseFrom1 (rows : List LogRow) : Prop :=
  rows.map LogRow.sequence = (List.range rows.length).map (fun i => (i : Int) + 1)

/-- Reachability invariant of the webhook system: every `Running` job
belongs to the task that holds the execution lock and sits between its
`Running` update and its `complete_job`. -/
def RunInv (s : SysState) : Prop :=
  ∀ i, jobAt s i = .running → s.lockOwner = some i ∧ phaseAt s i = .markedRunning

/-! ## Concrete inputs for counterexamples and witnesses -/

/-- A minimal project: one branch, no hooks, no secret. -/
def demoProject : ProjectConfig :=
  ⟨"demo", "/srv/demo", ["main"], "echo hi", none, none, none, none, none,
   none, none, none, none⟩

/-- A project with all four hooks configured. -/
def demoHookedProject : ProjectConfig :=
  { demoProject with
    post_script := some "echo post"
    post_success_script := some "echo ok"
    post_failure_script := some "echo boom"
    post_always_script := some "echo done" }

/-- A subprocess that runs and exits zero silently. -/
def ranOk : ProcOutcome := .ran ⟨"", "", some 0⟩

/-- Every stage succeeds. -/
def demoOutcomes : StepOutcomes :=
  ⟨ranOk, ranOk, ranOk, ranOk, ranOk, ranOk, ranOk, ranOk, ranOk, ranOk⟩

/-- Every stage succeeds except the main script, which exits 7. -/
def exitSevenOutcomes : StepOutcomes :=
  { demoOutcomes with main := .ran ⟨"", "", some 7⟩ }

/-! # Theorems -/

/-- C1: the claim says `complete_job` caps the persisted output at 1 MiB
with a literal tail and sets `output_truncated`.  The code does neither:
for every supplied output, of any size, the UPDATE persists it verbatim and
leaves `output_truncated` untouched (hence false along the SQL path, which
never calls the truncating `Job::mark_success`).  At the failing input, an
output of `MAX_OUTPUT_SIZE + 1` bytes, the stored output is therefore the
whole string with the flag still false. -/
theorem C1_complete_job_stores_output_verbatim :
    ∀ (row : JobRow) (status : JobStatus) (output error : Option String)
      (completedAt : Int),
      (completeJob row status output error completedAt).output = output ∧
      (completeJob row status output error completedAt).output_truncated =
        row.output_truncated ∧
      (markSuccessOutput (List.replicate (MAX_OUTPUT_SIZE + 1) 97)).2 = true := by
  intro row status output error completedAt
  refine ⟨rfl, rfl, ?_⟩
  have h : (List.replicate (MAX_OUTPUT_SIZE + 1) (97 : Nat)).length > MAX_OUTPUT_SIZE := by
    simp
  unfold markSuccessOutput
  rw [if_pos h]

/-- C3 counterexample: the claim says `duration_ms` is clamped to 0 when
`completed_at` precedes `started_at`; for a job started at 1000 ms and
completed at 0 ms the store writes -1000, not 0. -/
theorem C3_negative_duration_stored :
    (completeJob (createJob "j1" "demo" "main" none none none .queued 1000)
        .failed none none 0).duration_ms = some (-1000) ∧
      some (-1000 : Int) ≠ some (0 : Int) := by
  exact ⟨rfl, by decide⟩

/-- C3 amended: `complete_job` stores
`duration_ms = completed_at - started_at` in milliseconds with no clamping
(negative when `completed_at` precedes `started_at`; the `unwrap_or(0)`
fallback applies only to an unparseable stored `started_at`, which
`create_job` never writes). -/
theorem C3_duration_unclamped :
    ∀ (row : JobRow) (status : JobStatus) (output error : Option String)
      (completedAt : Int),
      (completeJob row status output error completedAt).duration_ms =
        some (completedAt - row.started_at) := by
  intro row status output error completedAt
  rfl

/-- C10: when the pipeline fails, the spawned webhook task calls
`complete_job` with `output = None` and `error = Some(e.to_string())`, so
the persisted row of a `Failed` job has null output and the error text set. -/
theorem C10_failed_job_output_null :
    ∀ (row : JobRow) (e : CicdError) (completedAt : Int),
      (finishJob row (.error e) completedAt).output = none ∧
      (finishJob row (.error e) completedAt).error = some e.display ∧
      (finishJob row (.error e) completedAt).status = .failed := by
  intro row e completedAt
  exact ⟨rfl, rfl, rfl⟩

set_option maxRecDepth 4000 in
/-- C5: the claim says intake truncates at 500 characters and completes
normally for every string, including multi-byte ones.  The code slices the
first 500 UTF-8 bytes; on a message of 499 ASCII characters followed by a
two-byte character (501 bytes), byte index 500 falls inside the last
character and the slice panics (modelled as `none`). -/
theorem C5_commit_truncation_panics_on_multibyte :
    truncateCommitMessage (String.mk (List.replicate 499 'a' ++ ['é'])) = none ∧
    (strBytes (String.mk (List.replicate 499 'a' ++ ['é']))).length = 501 := by
  decide

/-- C7: the claim says the MAC comparison is constant-time over the MAC
length.  The slice equality the code performs (despite its own
"Constant-time comparison" comment) stops at the first differing element:
against the same 32-byte computed MAC, a candidate differing at byte 0
takes 1 element comparison while one differing at byte 31 takes 32, so the
work depends on where the inputs first differ. -/
theorem C7_comparison_steps_depend_on_first_difference :
    (1 :: List.replicate 31 0).length = (List.replicate 31 0 ++ [1]).length ∧
    sliceEqSteps (List.replicate 32 0) (1 :: List.replicate 31 0) = 1 ∧
    sliceEqSteps (List.replicate 32 0) (List.replicate 31 0 ++ [1]) = 32 := by
  decide

/-- Decoding inverts encoding on one hex digit. -/
theorem hexRoundDigit : ∀ n, n < 16 → hexCharVal (hexDigitChar n) = some n := by
  decide

/-- `hex::decode` inverts `hex::encode` on genuine byte strings. -/
theorem hexDecode_hexEncode (bs : List Nat) (h : ∀ b ∈ bs, b < 256) :
    hexDecodeChars (hexEncodeBytes bs) = some bs := by
  induction bs with
  | nil => rfl
  | cons b rest ih =>
    have hb : b < 256 := h b (by simp)
    have hrest := ih (fun x hx => h x (by simp [hx]))
    have h1 : b / 16 < 16 := by omega
    have h2 : b % 16 < 16 := by omega
    have e1 := hexRoundDigit _ h1
    have e2 := hexRoundDigit _ h2
    simp only [hexEncodeBytes, List.flatMap_cons, List.cons_append, List.nil_append]
    show hexDecodeChars (hexDigitChar (b / 16) :: hexDigitChar (b % 16) ::
      hexEncodeBytes rest) = _
    rw [hexDecodeChars, e1, e2, hrest]
    simp only []
    have : b / 16 * 16 + b % 16 = b := by omega
    rw [this]

/-- The four big-endian bytes of a word are bytes. -/
theorem wordBytes4_lt (w : Nat) : ∀ b ∈ wordBytes4 w, b < 256 := by
  simp [wordBytes4]
  omega

/-- A SHA-256 digest consists of genuine bytes. -/
theorem sha256_bytes_lt (msg : List Nat) : ∀ b ∈ sha256 msg, b < 256 := by
  intro b hb
  rw [sha256, List.mem_flatMap] at hb
  obtain ⟨w, _, hw⟩ := hb
  exact wordBytes4_lt w b hw

/-- An HMAC-SHA256 tag consists of genuine bytes. -/
theorem hmacSha256_bytes_lt (key msg : List Nat) :
    ∀ b ∈ hmacSha256 key msg, b < 256 := by
  rw [hmacSha256]
  exact sha256_bytes_lt _

/-- A list is a prefix of itself followed by anything. -/
theorem isPrefixOf_append_self (l t : List Char) : l.isPrefixOf (l ++ t) = true := by
  induction l with
  | nil => simp
  | cons c cs ih => simp [List.isPrefixOf_cons₂, ih]

/-- C6: `verify_github_signature` returns true exactly when the header
starts with the literal `sha256=` and the hex-decoded remainder equals
HMAC-SHA256(secret, payload); malformed hex, a wrong prefix or a short
header give false (the function is total Boolean, never an error), and the
genuine header `sha256=` ++ hex(HMAC-SHA256(secret, payload)) verifies for
every secret and payload, while by the equivalence any header whose
decoded remainder differs from the tag is rejected. -/
theorem C6_verify_signature_iff_and_roundtrip :
    ∀ (secret : String) (payload : List Nat) (header : String),
      (verify_github_signature secret payload header = true ↔
        ("sha256=".data.isPrefixOf header.data = true ∧
         hexDecodeChars (header.data.drop 7) =
           some (hmacSha256 (strBytes secret) payload))) ∧
      verify_github_signature secret payload
        ("sha256=" ++ String.mk (hexEncodeBytes
          (hmacSha256 (strBytes secret) payload))) = true := by
  intro secret payload header
  constructor
  · unfold verify_github_signature
    by_cases hp : "sha256=".data.isPrefixOf header.data
    · rw [if_pos hp]
      cases hd : hexDecodeChars (header.data.drop 7) with
      | none => simp [hp, hd]
      | some bytes => simp [hp, hd, beq_iff_eq]
    · rw [if_neg hp]
      simp [hp]
  · unfold verify_github_signature
    have hdata : ("sha256=" ++ String.mk (hexEncodeBytes
        (hmacSha256 (strBytes secret) payload))).data =
        "sha256=".data ++ hexEncodeBytes (hmacSha256 (strBytes secret) payload) := rfl
    rw [hdata]
    rw [if_pos (isPrefixOf_append_self _ _)]
    have hdrop : ("sha256=".data ++ hexEncodeBytes
        (hmacSha256 (strBytes secret) payload)).drop 7 =
        hexEncodeBytes (hmacSha256 (strBytes secret) payload) := by
      have : ("sha256=".data).length = 7 := rfl
      rw [← this, List.drop_left]
    rw [hdrop, hexDecode_hexEncode _ (hmacSha256_bytes_lt _ _)]
    simp

theorem countRunning_nil : countRunning [] = 0 := rfl

theorem countRunning_cons (r : LogRow) (rest : List LogRow) :
    countRunning (r :: rest) =
      (if r.status = "running" then 1 else 0) + countRunning rest := by
  simp [countRunning, List.filter_cons]
  split <;> simp [Nat.add_comm]

theorem pendInv_le_one (pending : Bool) (rows : List LogRow)
    (h : pendInv pending rows) : countRunning rows ≤ 1 := by
  cases pending with
  | false => rw [pendInv] at h; omega
  | true =>
    rw [pendInv] at h
    obtain ⟨r, rest, hrows, hst, hcount⟩ := h
    subst hrows
    rw [countRunning_cons, if_pos hst, hcount]

theorem applyOps_cons (jobId : String) (rows : List LogRow) (op : LogOp) (ops : List LogOp) :
    applyOps jobId rows (op :: ops) = applyOps jobId (applyOp jobId rows op) ops := rfl

theorem take_count_le (jobId : String) :
    ∀ (ops : List LogOp) (pending : Bool) (rows : List LogRow),
      opsOk pending ops = true → pendInv pending rows →
      ∀ k, countRunning (applyOps jobId rows (ops.take k)) ≤ 1 := by
  intro ops
  induction ops with
  | nil =>
    intro pending rows _ hinv k
    simp [applyOps]
    exact pendInv_le_one _ _ hinv
  | cons op rest ih =>
    intro pending rows hok hinv k
    cases k with
    | zero =>
      simp [applyOps]
      exact pendInv_le_one _ _ hinv
    | succ k =>
      rw [List.take_succ_cons, applyOps_cons]
      cases op with
      | start lt cmd =>
        rw [opsOk] at hok
        simp only [Bool.and_eq_true, Bool.not_eq_true'] at hok
        obtain ⟨hpend, hok'⟩ := hok
        subst hpend
        rw [pendInv] at hinv
        refine ih true _ hok' ?_ k
        rw [pendInv]
        exact ⟨_, rows, rfl, rfl, hinv⟩
      | finish f =>
        rw [opsOk] at hok
        simp only [Bool.and_eq_true] at hok
        obtain ⟨⟨hpend, hfst⟩, hok'⟩ := hok
        subst hpend
        rw [pendInv] at hinv
        obtain ⟨r, rrest, hrows, hst, hcount⟩ := hinv
        subst hrows
        refine ih false _ hok' ?_ k
        rw [pendInv, applyOp, countRunning_cons]
        simp only [bne_iff_ne, ne_eq] at hfst
        rw [if_neg hfst, hcount]


theorem opsOfBlocks_cons (b : Block) (bs : List Block) :
    opsOfBlocks (b :: bs) = opsOfBlock b ++ opsOfBlocks bs := by
  simp [opsOfBlocks]

theorem opsOk_blocks (bs : List Block) (h : blocksOk bs = true) :
    opsOk false (opsOfBlocks bs) = true := by
  induction bs with
  | nil => rfl
  | cons b rest ih =>
    rw [opsOfBlocks_cons]
    cases rest with
    | nil =>
      cases hf : b.fin with
      | none => simp [opsOfBlock, hf, opsOfBlocks, opsOk]
      | some f =>
        simp only [blocksOk, okLastBlock, hf] at h
        simp [opsOfBlock, hf, opsOfBlocks, opsOk, h]
    | cons b2 rest2 =>
      simp only [blocksOk, Bool.and_eq_true] at h
      obtain ⟨hc, hrest⟩ := h
      cases hf : b.fin with
      | none => simp only [closedBlock, hf] at hc; exact absurd hc (by simp)
      | some f =>
        simp only [closedBlock, hf] at hc
        have hb : opsOfBlock b = [LogOp.start b.logType b.command, LogOp.finish f] := by
          simp [opsOfBlock, hf]
        rw [hb]
        show opsOk false (LogOp.start b.logType b.command :: LogOp.finish f ::
          opsOfBlocks (b2 :: rest2)) = true
        rw [opsOk, opsOk]
        simp [hc, ih hrest]


theorem seqsOk_nil : seqsOk [] := rfl

theorem seqsOk_applyOp (jobId : String) (rows : List LogRow) (op : LogOp)
    (h : seqsOk rows) : seqsOk (applyOp jobId rows op) := by
  cases op with
  | start lt cmd =>
    rw [seqsOk] at h ⊢
    rw [applyOp]
    simp only [List.map_cons, List.length_cons, descSeqs]
    rw [h]
  | finish f =>
    cases rows with
    | nil => rw [applyOp]; exact h
    | cons r rest =>
      rw [seqsOk] at h ⊢
      rw [applyOp]
      simpa using h

theorem seqsOk_applyOps (jobId : String) (ops : List LogOp) :
    ∀ rows, seqsOk rows → seqsOk (applyOps jobId rows ops) := by
  induction ops with
  | nil => intro rows h; exact h
  | cons op rest ih =>
    intro rows h
    rw [applyOps_cons]
    exact ih _ (seqsOk_applyOp _ _ _ h)

theorem descSeqs_reverse (n : Nat) :
    (descSeqs n).reverse = (List.range n).map (fun i : Nat => (i : Int) + 1) := by
  induction n with
  | zero => rfl
  | succ n ih => simp [descSeqs, List.range_succ, ih]

theorem closedBlock_okLast (b : Block) (h : closedBlock b = true) :
    okLastBlock b = true := by
  cases hf : b.fin with
  | none => simp [closedBlock, hf] at h
  | some f => simp only [closedBlock, hf] at h; simp [okLastBlock, hf, h]

theorem blocksOk_cons_ne (b : Block) (bs : List Block) (h : bs ≠ []) :
    blocksOk (b :: bs) = (closedBlock b && blocksOk bs) := by
  cases bs with
  | nil => exact absurd rfl h
  | cons z zs => rfl

theorem blocksOk_of_all_closed (bs : List Block)
    (h : ∀ b ∈ bs, closedBlock b = true) : blocksOk bs = true := by
  induction bs with
  | nil => rfl
  | cons b rest ih =>
    have hb := h b (by simp)
    cases rest with
    | nil => rw [blocksOk]; exact closedBlock_okLast _ hb
    | cons z zs =>
      rw [blocksOk_cons_ne _ _ (by simp)]
      simp [hb, ih (fun x hx => h x (by simp [hx]))]

theorem blocksOk_append (xs ys : List Block)
    (hx : ∀ b ∈ xs, closedBlock b = true)
    (hys : blocksOk ys = true) (hne : ys ≠ []) : blocksOk (xs ++ ys) = true := by
  induction xs with
  | nil => simpa
  | cons x xs ih =>
    have hx0 : closedBlock x = true := hx x (by simp)
    have hxs : ∀ b ∈ xs, closedBlock b = true := fun b hb => hx b (by simp [hb])
    rw [List.cons_append, blocksOk_cons_ne _ _ (by
      intro hc
      exact hne (List.append_eq_nil.mp hc).2)]
    simp [hx0, ih hxs]

theorem scriptStep_closed (lt s : String) (po : ProcOutcome) (env : Option String) :
    closedBlock (scriptStep lt s po env).1 = true := by
  cases hr : runScriptWithEnv s po with
  | ok r => simp [scriptStep, hr, closedBlock]
  | error e => simp [scriptStep, hr, closedBlock]

theorem gitStep_okLast (spec : GitStepSpec) (po : ProcOutcome) :
    okLastBlock (gitStep spec po).1 = true := by
  cases po with
  | spawnFail e => simp [gitStep, okLastBlock]
  | ran r =>
    by_cases hs : procSuccess r = true
    · simp [gitStep, hs, okLastBlock]
    · simp [gitStep, hs, okLastBlock]

theorem gitStep_closed_of_ok (spec : GitStepSpec) (po : ProcOutcome) (out : String)
    (h : (gitStep spec po).2 = .ok out) : closedBlock (gitStep spec po).1 = true := by
  cases po with
  | spawnFail e => simp [gitStep] at h
  | ran r =>
    by_cases hs : procSuccess r = true
    · simp [gitStep, hs, closedBlock]
    · simp [gitStep, hs] at h

theorem runHook_closed (lt s : String) (po : ProcOutcome) (env : String) :
    closedBlock (runHook lt s po env).1 = true := by
  rw [runHook]
  rcases hs : scriptStep lt s po (some env) with ⟨b, r⟩
  have := scriptStep_closed lt s po (some env)
  rw [hs] at this
  cases r <;> simpa using this

theorem postPhase_closed (p : ProjectConfig) (o : StepOutcomes) (mainOk : Bool)
    (env : String) : ∀ b ∈ (postPhase p o mainOk env).1, closedBlock b = true := by
  rw [postPhase]
  cases mainOk with
  | true =>
    cases hps : p.post_success_script with
    | some s =>
      intro x hx
      simp at hx
      subst hx
      exact runHook_closed _ _ _ _
    | none =>
      cases hp : p.post_script with
      | some s =>
        intro x hx
        simp at hx
        subst hx
        exact runHook_closed _ _ _ _
      | none => intro x hx; simp at hx
  | false =>
    cases hps : p.post_failure_script with
    | some s =>
      intro x hx
      simp at hx
      subst hx
      exact runHook_closed _ _ _ _
    | none =>
      cases hp : p.post_script with
      | some s =>
        intro x hx
        simp at hx
        subst hx
        exact runHook_closed _ _ _ _
      | none => intro x hx; simp at hx

theorem alwaysPhase_closed (p : ProjectConfig) (o : StepOutcomes) (env : String) :
    ∀ b ∈ (alwaysPhase p o env).1, closedBlock b = true := by
  rw [alwaysPhase]
  cases hpa : p.post_always_script with
  | some s =>
    intro x hx
    simp at hx
    subst hx
    exact runHook_closed _ _ _ _
  | none => intro x hx; simp at hx

theorem gitUpdateStage_ne_nil (p : ProjectConfig) (branch : String) (o : StepOutcomes) :
    (gitUpdateStage p branch o).1 ≠ [] := by
  rw [gitUpdateStage]
  by_cases hr : shouldResetToRemote p = true
  · simp [hr]
  · simp only [hr, if_false, Bool.false_eq_true]
    cases hsw : (gitStep (switchSpec branch) o.switch).2 with
    | error e => simp
    | ok outSw =>
      cases hpu : (gitStep pullSpec o.pull).2 with
      | error e => simp
      | ok outPu => simp

theorem gitUpdateStage_blocksOk (p : ProjectConfig) (branch : String) (o : StepOutcomes) :
    blocksOk (gitUpdateStage p branch o).1 = true := by
  rw [gitUpdateStage]
  by_cases hr : shouldResetToRemote p = true
  · simpa [hr, blocksOk] using gitStep_okLast (resetSpec branch) o.reset
  · simp only [hr, if_false, Bool.false_eq_true]
    cases hsw : (gitStep (switchSpec branch) o.switch).2 with
    | error e => simpa [blocksOk] using gitStep_okLast (switchSpec branch) o.switch
    | ok outSw =>
      have hswc := gitStep_closed_of_ok (switchSpec branch) o.switch outSw hsw
      have hpl := gitStep_okLast pullSpec o.pull
      cases hpu : (gitStep pullSpec o.pull).2 with
      | error e => simp [blocksOk, hswc, hpl]
      | ok outPu => simp [blocksOk, hswc, hpl]

theorem gitUpdateStage_closed_of_ok (p : ProjectConfig) (branch : String)
    (o : StepOutcomes) (out : String)
    (h : (gitUpdateStage p branch o).2 = .ok out) :
    ∀ b ∈ (gitUpdateStage p branch o).1, closedBlock b = true := by
  rw [gitUpdateStage] at h ⊢
  by_cases hr : shouldResetToRemote p = true
  · simp only [hr, if_true] at h ⊢
    intro x hx
    simp at hx
    subst hx
    exact gitStep_closed_of_ok (resetSpec branch) o.reset out h
  · simp only [hr, if_false, Bool.false_eq_true] at h ⊢
    cases hsw : (gitStep (switchSpec branch) o.switch).2 with
    | error e => rw [hsw] at h; exact Except.noConfusion h
    | ok outSw =>
      have hswc := gitStep_closed_of_ok (switchSpec branch) o.switch outSw hsw
      rw [hsw] at h
      cases hpu : (gitStep pullSpec o.pull).2 with
      | error e => rw [hpu] at h; exact Except.noConfusion h
      | ok outPu =>
        have hpuc := gitStep_closed_of_ok pullSpec o.pull outPu hpu
        intro x hx
        simp at hx
        rcases hx with hx | hx <;> subst hx
        · exact hswc
        · exact hpuc

theorem preStage_none (p : ProjectConfig) (o : StepOutcomes)
    (h : p.pre_script = none) : preStage p o = ([], .ok "") := by
  rw [preStage, h]

theorem preStage_some (p : ProjectConfig) (o : StepOutcomes) (s : String)
    (h : p.pre_script = some s) :
    preStage p o =
      (match (scriptStep "pre_script" s o.pre none).2 with
       | .ok r => ([(scriptStep "pre_script" s o.pre none).1], .ok r.output)
       | .error e => ([(scriptStep "pre_script" s o.pre none).1], .error e)) := by
  rw [preStage, h]
  show (match scriptStep "pre_script" s o.pre none with
        | (b, Except.ok r) => ([b], Except.ok r.output)
        | (b, Except.error e) => ([b], Except.error e)) = _
  rcases hss : scriptStep "pre_script" s o.pre none with ⟨b, r⟩
  cases r <;> rfl

theorem runJobPipeline_eq (p : ProjectConfig) (branch : String) (o : StepOutcomes) :
    runJobPipeline p branch o =
      (match (gitStep fetchSpec o.fetch).2 with
       | .error e => ([(gitStep fetchSpec o.fetch).1], .error e)
       | .ok outFetch =>
         match (gitUpdateStage p branch o).2 with
         | .error e =>
             ((gitStep fetchSpec o.fetch).1 :: (gitUpdateStage p branch o).1, .error e)
         | .ok outUpdate =>
           match (preStage p o).2 with
           | .error e =>
               ((gitStep fetchSpec o.fetch).1 :: (gitUpdateStage p branch o).1 ++
                 (preStage p o).1, .error e)
           | .ok outPre =>
               ((gitStep fetchSpec o.fetch).1 :: (gitUpdateStage p branch o).1 ++
                 (preStage p o).1 ++
                 (mainAndAfter p branch o (outFetch ++ outUpdate ++ outPre)).1,
                (mainAndAfter p branch o (outFetch ++ outUpdate ++ outPre)).2)) := rfl

theorem preStage_blocksOk (p : ProjectConfig) (o : StepOutcomes) :
    blocksOk (preStage p o).1 = true := by
  cases hps : p.pre_script with
  | none => rw [preStage_none p o hps]; rfl
  | some s =>
    rw [preStage_some p o s hps]
    have hc := scriptStep_closed "pre_script" s o.pre none
    cases hr : (scriptStep "pre_script" s o.pre none).2 with
    | ok r => simpa [blocksOk] using closedBlock_okLast _ hc
    | error e => simpa [blocksOk] using closedBlock_okLast _ hc

theorem preStage_ne_nil_of_error (p : ProjectConfig) (o : StepOutcomes)
    (e : CicdError) (h : (preStage p o).2 = .error e) : (preStage p o).1 ≠ [] := by
  cases hps : p.pre_script with
  | none => rw [preStage_none p o hps] at h; exact Except.noConfusion h
  | some s =>
    rw [preStage_some p o s hps]
    cases hr : (scriptStep "pre_script" s o.pre none).2 with
    | ok r => simp
    | error e2 => simp

theorem preStage_closed_of_ok (p : ProjectConfig) (o : StepOutcomes) (out : String)
    (h : (preStage p o).2 = .ok out) :
    ∀ b ∈ (preStage p o).1, closedBlock b = true := by
  cases hps : p.pre_script with
  | none => rw [preStage_none p o hps]; intro x hx; simp at hx
  | some s =>
    rw [preStage_some p o s hps]
    have hc := scriptStep_closed "pre_script" s o.pre none
    cases hr : (scriptStep "pre_script" s o.pre none).2 with
    | ok r =>
      intro x hx
      simp at hx
      subst hx
      exact hc
    | error e2 =>
      intro x hx
      simp at hx
      subst hx
      exact hc

theorem mainAndAfter_closed (p : ProjectConfig) (branch : String) (o : StepOutcomes)
    (acc : String) : ∀ b ∈ (mainAndAfter p branch o acc).1, closedBlock b = true := by
  rw [mainAndAfter]
  intro x hx
  simp at hx
  rcases hx with hx | hx | hx
  · subst hx
    exact scriptStep_closed _ _ _ _
  · exact postPhase_closed _ _ _ _ x hx
  · exact alwaysPhase_closed _ _ _ x hx

theorem mainAndAfter_ne_nil (p : ProjectConfig) (branch : String) (o : StepOutcomes)
    (acc : String) : (mainAndAfter p branch o acc).1 ≠ [] := by
  rw [mainAndAfter]
  simp

theorem blocksOk_pipeline (p : ProjectConfig) (branch : String) (o : StepOutcomes) :
    blocksOk (runJobPipeline p branch o).1 = true := by
  rw [runJobPipeline_eq]
  cases hf : (gitStep fetchSpec o.fetch).2 with
  | error e =>
    simpa [blocksOk] using gitStep_okLast fetchSpec o.fetch
  | ok outF =>
    have hfc := gitStep_closed_of_ok fetchSpec o.fetch outF hf
    cases hu : (gitUpdateStage p branch o).2 with
    | error e =>
      have := blocksOk_append [(gitStep fetchSpec o.fetch).1] (gitUpdateStage p branch o).1
        (by intro x hx; simp at hx; subst hx; exact hfc)
        (gitUpdateStage_blocksOk p branch o) (gitUpdateStage_ne_nil p branch o)
      simpa using this
    | ok outU =>
      have huc := gitUpdateStage_closed_of_ok p branch o outU hu
      cases hp : (preStage p o).2 with
      | error e =>
        have := blocksOk_append
          ((gitStep fetchSpec o.fetch).1 :: (gitUpdateStage p branch o).1) (preStage p o).1
          (by
            intro x hx
            simp at hx
            rcases hx with hx | hx
            · subst hx; exact hfc
            · exact huc x hx)
          (preStage_blocksOk p o) (preStage_ne_nil_of_error p o e hp)
        simpa using this
      | ok outP =>
        have hpc := preStage_closed_of_ok p o outP hp
        have := blocksOk_append
          ((gitStep fetchSpec o.fetch).1 :: (gitUpdateStage p branch o).1 ++ (preStage p o).1)
          (mainAndAfter p branch o (outF ++ outU ++ outP)).1
          (by
            intro x hx
            simp at hx
            rcases hx with hx | hx | hx
            · subst hx; exact hfc
            · exact huc x hx
            · exact hpc x hx)
          (blocksOk_of_all_closed _ (mainAndAfter_closed p branch o _))
          (mainAndAfter_ne_nil p branch o _)
        simpa using this

theorem dryRunLogs_seqs (p : ProjectConfig) (jobId branch : String) :
    (dryRunLogs p jobId branch).map LogRow.sequence =
      (List.range (dryRunLogs p jobId branch).length).map (fun i : Nat => (i : Int)) := by
  rw [dryRunLogs]
  cases p.pre_script <;> cases p.post_success_script <;> cases p.post_always_script <;>
    simp [dryRunRow] <;> norm_num [List.range_succ]

theorem dryRunLogs_skipped (p : ProjectConfig) (jobId branch : String) :
    (dryRunLogs p jobId branch).all (fun r => r.status == "skipped") = true := by
  rw [dryRunLogs]
  cases p.pre_script <;> cases p.post_success_script <;> cases p.post_always_script <;>
    simp [dryRunRow]

/-- C2 amended: for pipeline-executed jobs the rows carry dense 1-based
sequences in insertion order and at every instant of the trace at most one
row is in `running` status; dry-run jobs get dense 0-based sequences and
their rows are inserted already `skipped`, never `running`. -/
theorem C2_sequences_dense_and_single_running :
    ∀ (jobId : String) (p : ProjectConfig) (branch : String) (o : StepOutcomes),
      (applyOps jobId [] (opsOfBlocks (runJobPipeline p branch o).1)).reverse.map
          LogRow.sequence =
        (List.range
          (applyOps jobId [] (opsOfBlocks (runJobPipeline p branch o).1)).length).map
          (fun i : Nat => (i : Int) + 1) ∧
      (∀ k, countRunning (applyOps jobId []
          ((opsOfBlocks (runJobPipeline p branch o).1).take k)) ≤ 1) ∧
      (dryRunLogs p jobId branch).map LogRow.sequence =
        (List.range (dryRunLogs p jobId branch).length).map (fun i : Nat => (i : Int)) ∧
      (dryRunLogs p jobId branch).all (fun r => r.status == "skipped") = true := by
  intro jobId p branch o
  refine ⟨?_, ?_, dryRunLogs_seqs p jobId branch, dryRunLogs_skipped p jobId branch⟩
  · have h := seqsOk_applyOps jobId (opsOfBlocks (runJobPipeline p branch o).1) [] rfl
    rw [seqsOk] at h
    rw [List.map_reverse, h, descSeqs_reverse]
  · intro k
    exact take_count_le jobId _ false []
      (opsOk_blocks _ (blocksOk_pipeline p branch o)) rfl k

/-- C2 counterexample: the claim says every job, dry-run jobs included,
gets log sequences exactly 1..N.  A dry-run job of a project with no hooks
gets three rows with sequences 0, 1, 2: the dry-run branch numbers from 0
(`let mut sequence = 0;` before the first insert). -/
theorem C2_dry_run_sequences_start_at_zero :
    (dryRunLogs demoProject "job-1" "main").map LogRow.sequence = [0, 1, 2] ∧
    ¬ seqsDenseFrom1 (dryRunLogs demoProject "job-1" "main") := by
  refine ⟨by decide, ?_⟩
  rw [seqsDenseFrom1]
  decide

theorem scriptStep_snd (lt s : String) (po : ProcOutcome) (env : Option String) :
    (scriptStep lt s po env).2 = runScriptWithEnv s po := by
  cases hr : runScriptWithEnv s po <;> simp [scriptStep, hr]

theorem scriptStep_logType (lt s : String) (po : ProcOutcome) (env : Option String) :
    (scriptStep lt s po env).1.logType = lt := by
  cases hr : runScriptWithEnv s po <;> simp [scriptStep, hr]

theorem scriptStep_env (lt s : String) (po : ProcOutcome) (env : Option String) :
    (scriptStep lt s po env).1.mainExitEnv = env := by
  cases hr : runScriptWithEnv s po <;> simp [scriptStep, hr]

theorem runHook_logType (lt s : String) (po : ProcOutcome) (env : String) :
    (runHook lt s po env).1.logType = lt := by
  rw [runHook]
  have h1 := scriptStep_logType lt s po (some env)
  rcases hs : scriptStep lt s po (some env) with ⟨b, r⟩
  rw [hs] at h1
  cases r <;> simpa using h1

theorem runHook_env (lt s : String) (po : ProcOutcome) (env : String) :
    (runHook lt s po env).1.mainExitEnv = some env := by
  rw [runHook]
  have h1 := scriptStep_env lt s po (some env)
  rcases hs : scriptStep lt s po (some env) with ⟨b, r⟩
  rw [hs] at h1
  cases r <;> simpa using h1

theorem gitStep_logType (spec : GitStepSpec) (po : ProcOutcome) :
    (gitStep spec po).1.logType = spec.logType := by
  cases po with
  | spawnFail e => rfl
  | ran r =>
    by_cases hs : procSuccess r = true <;> simp [gitStep, hs]

theorem gitStep_env (spec : GitStepSpec) (po : ProcOutcome) :
    (gitStep spec po).1.mainExitEnv = none := by
  cases po with
  | spawnFail e => rfl
  | ran r =>
    by_cases hs : procSuccess r = true <;> simp [gitStep, hs]

theorem postPhase_types (p : ProjectConfig) (o : StepOutcomes) (mainOk : Bool)
    (env : String) :
    (postPhase p o mainOk env).1.map Block.logType =
      (if mainOk then
        (match p.post_success_script with
         | some _ => ["post_success"]
         | none => match p.post_script with
           | some _ => ["post_script"]
           | none => [])
       else
        (match p.post_failure_script with
         | some _ => ["post_failure"]
         | none => match p.post_script with
           | some _ => ["post_script"]
           | none => [])) := by
  rw [postPhase]
  cases mainOk with
  | true =>
    cases hps : p.post_success_script with
    | some s => simp [runHook_logType]
    | none =>
      cases hp : p.post_script with
      | some s => simp [runHook_logType]
      | none => simp
  | false =>
    cases hps : p.post_failure_script with
    | some s => simp [runHook_logType]
    | none =>
      cases hp : p.post_script with
      | some s => simp [runHook_logType]
      | none => simp

theorem alwaysPhase_types (p : ProjectConfig) (o : StepOutcomes) (env : String) :
    (alwaysPhase p o env).1.map Block.logType =
      (match p.post_always_script with
       | some _ => ["post_always"]
       | none => []) := by
  rw [alwaysPhase]
  cases hpa : p.post_always_script with
  | some s => simp [runHook_logType]
  | none => simp

theorem postPhase_env (p : ProjectConfig) (o : StepOutcomes) (mainOk : Bool)
    (env : String) : ∀ b ∈ (postPhase p o mainOk env).1, b.mainExitEnv = some env := by
  rw [postPhase]
  cases mainOk with
  | true =>
    cases hps : p.post_success_script with
    | some s =>
      intro x hx
      simp at hx
      subst hx
      exact runHook_env _ _ _ _
    | none =>
      cases hp : p.post_script with
      | some s =>
        intro x hx
        simp at hx
        subst hx
        exact runHook_env _ _ _ _
      | none => intro x hx; simp at hx
  | false =>
    cases hps : p.post_failure_script with
    | some s =>
      intro x hx
      simp at hx
      subst hx
      exact runHook_env _ _ _ _
    | none =>
      cases hp : p.post_script with
      | some s =>
        intro x hx
        simp at hx
        subst hx
        exact runHook_env _ _ _ _
      | none => intro x hx; simp at hx

theorem alwaysPhase_env (p : ProjectConfig) (o : StepOutcomes) (env : String) :
    ∀ b ∈ (alwaysPhase p o env).1, b.mainExitEnv = some env := by
  rw [alwaysPhase]
  cases hpa : p.post_always_script with
  | some s =>
    intro x hx
    simp at hx
    subst hx
    exact runHook_env _ _ _ _
  | none => intro x hx; simp at hx

theorem mainAndAfter_eq (p : ProjectConfig) (branch : String) (o : StepOutcomes)
    (acc : String) :
    mainAndAfter p branch o acc =
      ((scriptStep "main_script" (getRunScriptForBranch p branch) o.main none).1 ::
        (postPhase p o
          (match (scriptStep "main_script" (getRunScriptForBranch p branch) o.main none).2 with
           | .ok _ => true
           | .error _ => false)
          (toString
            (match (scriptStep "main_script" (getRunScriptForBranch p branch) o.main none).2 with
             | .ok r => r.exitCode
             | .error _ => (1 : Int)))).1 ++
        (alwaysPhase p o
          (toString
            (match (scriptStep "main_script" (getRunScriptForBranch p branch) o.main none).2 with
             | .ok r => r.exitCode
             | .error _ => (1 : Int)))).1,
       match (scriptStep "main_script" (getRunScriptForBranch p branch) o.main none).2 with
       | .ok r =>
           .ok ((acc ++ r.output) ++
             (postPhase p o true (toString r.exitCode)).2 ++
             (alwaysPhase p o (toString r.exitCode)).2)
       | .error e => .error e) := by
  rw [mainAndAfter]
  rcases hm : scriptStep "main_script" (getRunScriptForBranch p branch) o.main none with ⟨b, r⟩
  cases r with
  | ok res =>
    rcases hp : postPhase p o true (toString res.exitCode) with ⟨pb, pout⟩
    rcases ha : alwaysPhase p o (toString res.exitCode) with ⟨ab, aout⟩
    simp [hp, ha]
  | error e =>
    rcases hp : postPhase p o false (toString (1 : Int)) with ⟨pb, pout⟩
    rcases ha : alwaysPhase p o (toString (1 : Int)) with ⟨ab, aout⟩
    simp [hp, ha]

theorem isPostLogType_eq_false (b : Block)
    (h : b.logType ∈ (["git_fetch", "git_reset", "git_switch", "git_pull",
      "pre_script", "main_script"] : List String)) : isPostLogType b = false := by
  rw [isPostLogType]
  simp at h
  rcases h with h | h | h | h | h | h <;> simp [h]

theorem gitUpdateStage_types (p : ProjectConfig) (branch : String) (o : StepOutcomes) :
    ∀ b ∈ (gitUpdateStage p branch o).1,
      b.logType ∈ (["git_fetch", "git_reset", "git_switch", "git_pull",
        "pre_script", "main_script"] : List String) := by
  rw [gitUpdateStage]
  by_cases hr : shouldResetToRemote p = true
  · simp only [hr, if_true]
    intro x hx
    simp at hx
    subst hx
    rw [gitStep_logType (resetSpec branch) o.reset]
    simp [resetSpec]
  · simp only [hr, if_false, Bool.false_eq_true]
    cases hsw : (gitStep (switchSpec branch) o.switch).2 with
    | error e =>
      intro x hx
      simp at hx
      subst hx
      rw [gitStep_logType (switchSpec branch) o.switch]
      simp [switchSpec]
    | ok outSw =>
      cases hpu : (gitStep pullSpec o.pull).2 with
      | error e =>
        intro x hx
        simp at hx
        rcases hx with hx | hx <;> subst hx
        · rw [gitStep_logType (switchSpec branch) o.switch]
          simp [switchSpec]
        · rw [gitStep_logType pullSpec o.pull]
          simp [pullSpec]
      | ok outPu =>
        intro x hx
        simp at hx
        rcases hx with hx | hx <;> subst hx
        · rw [gitStep_logType (switchSpec branch) o.switch]
          simp [switchSpec]
        · rw [gitStep_logType pullSpec o.pull]
          simp [pullSpec]

theorem preStage_types (p : ProjectConfig) (o : StepOutcomes) :
    ∀ b ∈ (preStage p o).1,
      b.logType ∈ (["git_fetch", "git_reset", "git_switch", "git_pull",
        "pre_script", "main_script"] : List String) := by
  cases hps : p.pre_script with
  | none => rw [preStage_none p o hps]; intro x hx; simp at hx
  | some s =>
    rw [preStage_some p o s hps]
    cases hr : (scriptStep "pre_script" s o.pre none).2 with
    | ok r =>
      intro x hx
      simp at hx
      subst hx
      rw [scriptStep_logType "pre_script" s o.pre none]
      simp
    | error e =>
      intro x hx
      simp at hx
      subst hx
      rw [scriptStep_logType "pre_script" s o.pre none]
      simp

theorem runJobPipeline_reached (p : ProjectConfig) (branch : String) (o : StepOutcomes)
    (h : mainReached p o = true) :
    ∃ (gitPre : List Block) (acc : String),
      (runJobPipeline p branch o).1 = gitPre ++ (mainAndAfter p branch o acc).1 ∧
      (runJobPipeline p branch o).2 = (mainAndAfter p branch o acc).2 ∧
      ∀ b ∈ gitPre, isPostLogType b = false := by
  rw [mainReached] at h
  simp only [Bool.and_eq_true] at h
  obtain ⟨⟨hfetch, hupdate⟩, hpre⟩ := h
  rw [runJobPipeline_eq]
  have hfok : ∃ outF, (gitStep fetchSpec o.fetch).2 = .ok outF := by
    cases hc : o.fetch with
    | spawnFail e => rw [hc] at hfetch; simp [gitOkOutcome] at hfetch
    | ran r =>
      rw [hc] at hfetch
      simp only [gitOkOutcome] at hfetch
      exact ⟨r.stdout ++ r.stderr, by simp [gitStep, hfetch]⟩
  obtain ⟨outF, hfok⟩ := hfok
  have huok : ∃ outU, (gitUpdateStage p branch o).2 = .ok outU := by
    rw [gitUpdateStage]
    by_cases hrr : shouldResetToRemote p = true
    · rw [if_pos hrr] at hupdate
      simp only [hrr, if_true]
      cases hc : o.reset with
      | spawnFail e => rw [hc] at hupdate; simp [gitOkOutcome] at hupdate
      | ran r =>
        rw [hc] at hupdate
        simp only [gitOkOutcome] at hupdate
        exact ⟨r.stdout ++ r.stderr, by simp [gitStep, hupdate]⟩
    · rw [if_neg hrr] at hupdate
      simp only [hrr, if_false, Bool.false_eq_true, Bool.and_eq_true] at hupdate ⊢
      obtain ⟨hsw, hpu⟩ := hupdate
      have h1 : ∃ osw, (gitStep (switchSpec branch) o.switch).2 = .ok osw := by
        cases hc : o.switch with
        | spawnFail e => rw [hc] at hsw; simp [gitOkOutcome] at hsw
        | ran r =>
          rw [hc] at hsw
          simp only [gitOkOutcome] at hsw
          exact ⟨r.stdout ++ r.stderr, by simp [gitStep, hsw]⟩
      have h2 : ∃ opu, (gitStep pullSpec o.pull).2 = .ok opu := by
        cases hc : o.pull with
        | spawnFail e => rw [hc] at hpu; simp [gitOkOutcome] at hpu
        | ran r =>
          rw [hc] at hpu
          simp only [gitOkOutcome] at hpu
          exact ⟨r.stdout ++ r.stderr, by simp [gitStep, hpu]⟩
      obtain ⟨osw, h1⟩ := h1
      obtain ⟨opu, h2⟩ := h2
      rw [h1, h2]
      exact ⟨_, rfl⟩
  obtain ⟨outU, huok⟩ := huok
  have hpok : ∃ outP, (preStage p o).2 = .ok outP := by
    cases hps : p.pre_script with
    | none => rw [preStage_none p o hps]; exact ⟨"", rfl⟩
    | some s =>
      rw [hps] at hpre
      have hpre2 : exceptOk (runScriptWithEnv s o.pre) = true := hpre
      rw [preStage_some p o s hps]
      cases hr : runScriptWithEnv s o.pre with
      | ok r =>
        rw [scriptStep_snd, hr]
        exact ⟨r.output, rfl⟩
      | error e =>
        rw [hr] at hpre2
        simp [exceptOk] at hpre2
  obtain ⟨outP, hpok⟩ := hpok
  rw [hfok, huok, hpok]
  refine ⟨(gitStep fetchSpec o.fetch).1 :: (gitUpdateStage p branch o).1 ++ (preStage p o).1,
    outF ++ outU ++ outP, by simp, rfl, ?_⟩
  intro b hb
  simp at hb
  rcases hb with hb | hb | hb
  · subst hb
    refine isPostLogType_eq_false _ ?_
    rw [gitStep_logType fetchSpec o.fetch]
    simp [fetchSpec]
  · exact isPostLogType_eq_false _ (gitUpdateStage_types p branch o b hb)
  · exact isPostLogType_eq_false _ (preStage_types p o b hb)

theorem hasBlockType_of_map (bs : List Block) (t : String) :
    hasBlockType bs t = (bs.map Block.logType).any (fun s => s == t) := by
  induction bs with
  | nil => rfl
  | cons b rest ih =>
    rw [hasBlockType] at ih ⊢
    simp [List.any_cons, ih]


theorem hasBlockType_append (xs ys : List Block) (t : String) :
    hasBlockType (xs ++ ys) t = (hasBlockType xs t || hasBlockType ys t) := by
  rw [hasBlockType, hasBlockType, hasBlockType, List.any_append]

theorem hasBlockType_cons (b : Block) (bs : List Block) (t : String) :
    hasBlockType (b :: bs) t = ((b.logType == t) || hasBlockType bs t) := by
  rw [hasBlockType, hasBlockType, List.any_cons]

theorem hasBlockType_not_post (bs : List Block)
    (h : ∀ b ∈ bs, isPostLogType b = false) (t : String)
    (ht : t = "post_success" ∨ t = "post_failure" ∨ t = "post_script" ∨
      t = "post_always") :
    hasBlockType bs t = false := by
  rw [hasBlockType, List.any_eq_false]
  intro b hb
  have hp := h b hb
  rw [isPostLogType] at hp
  simp only [Bool.or_eq_false_iff] at hp
  rcases ht with ht | ht | ht | ht <;> subst ht <;> simp_all

/-- C8: in every run that reaches the post-hook stage, a successful main
script triggers `post_success_script` when configured, else `post_script`
when configured, never both; a failed main script symmetrically triggers
`post_failure_script`, else `post_script`, never both; and the run outcome
equals the main script outcome regardless of hook failures. -/
theorem C8_post_hook_selection :
    ∀ (p : ProjectConfig) (branch : String) (o : StepOutcomes),
      mainReached p o = true → C8PostSelection p branch o := by
  intro p branch o h
  obtain ⟨gitPre, acc, h1, h2, h3⟩ := runJobPipeline_reached p branch o h
  have hgp : ∀ t, t = "post_success" ∨ t = "post_failure" ∨ t = "post_script" ∨
      t = "post_always" → hasBlockType gitPre t = false :=
    fun t ht => hasBlockType_not_post gitPre h3 t ht
  unfold C8PostSelection
  rw [h1, h2, mainAndAfter_eq]
  simp only [scriptStep_snd]
  have hmain := scriptStep_logType "main_script" (getRunScriptForBranch p branch) o.main none
  cases hm : runScriptWithEnv (getRunScriptForBranch p branch) o.main with
  | ok r =>
    simp only [exceptOk]
    simp only [hasBlockType_append, hasBlockType_cons]
    rw [hgp _ (by simp), hgp _ (by simp), hgp _ (by simp)]
    simp only [hasBlockType_of_map, postPhase_types, alwaysPhase_types, hmain]
    cases p.post_success_script <;> cases p.post_script <;> cases p.post_always_script <;>
      simp
  | error e =>
    simp only [exceptOk]
    simp only [hasBlockType_append, hasBlockType_cons]
    rw [hgp _ (by simp), hgp _ (by simp), hgp _ (by simp)]
    simp only [hasBlockType_of_map, postPhase_types, alwaysPhase_types, hmain]
    cases p.post_failure_script <;> cases p.post_script <;> cases p.post_always_script <;>
      simp

theorem all_env_filter (bs : List Block) (q : Block → Bool) (v : String)
    (h : ∀ b ∈ bs, b.mainExitEnv = some v) :
    (bs.filter q).all (fun b => b.mainExitEnv == some v) = true := by
  rw [List.all_eq_true]
  intro b hb
  have := h b (List.mem_of_mem_filter hb)
  simp [this]

/-- C4 amended: every post hook (post_success, post_failure, post_script,
post_always) runs with `CICD_MAIN_SCRIPT_EXIT_CODE` equal to
`main_result.as_ref().map(|r| r.exit_code).unwrap_or(1)`: the main exit
code when main succeeded (hence 0), and the literal 1 on any main failure
regardless of the actual exit code. -/
theorem C4_post_env_value :
    ∀ (p : ProjectConfig) (branch : String) (o : StepOutcomes),
      mainReached p o = true →
      ((runJobPipeline p branch o).1.filter isPostLogType).all
        (fun b => b.mainExitEnv == some (toString (mainExitOf p branch o))) = true := by
  intro p branch o h
  obtain ⟨gitPre, acc, h1, h2, h3⟩ := runJobPipeline_reached p branch o h
  rw [h1, mainAndAfter_eq, mainExitOf]
  simp only [scriptStep_snd]
  have hgp : gitPre.filter isPostLogType = [] := by
    rw [List.filter_eq_nil_iff]
    intro b hb
    simp [h3 b hb]
  have hmainb : isPostLogType
      (scriptStep "main_script" (getRunScriptForBranch p branch) o.main none).1 = false := by
    refine isPostLogType_eq_false _ ?_
    rw [scriptStep_logType]
    simp
  cases hm : runScriptWithEnv (getRunScriptForBranch p branch) o.main with
  | ok r =>
    rw [List.filter_append, hgp, List.nil_append, List.filter_append,
      List.filter_cons_of_neg (by simp [hmainb]), List.all_append]
    rw [all_env_filter _ _ _ (postPhase_env p o true (toString r.exitCode)),
        all_env_filter _ _ _ (alwaysPhase_env p o (toString r.exitCode))]
    rfl
  | error e =>
    rw [List.filter_append, hgp, List.nil_append, List.filter_append,
      List.filter_cons_of_neg (by simp [hmainb]), List.all_append]
    rw [all_env_filter _ _ _ (postPhase_env p o false (toString (1 : Int))),
        all_env_filter _ _ _ (alwaysPhase_env p o (toString (1 : Int)))]
    rfl

/-- C4 counterexample: the claim says a main script exiting 7 makes the
post scripts see `CICD_MAIN_SCRIPT_EXIT_CODE = 7`.  With the main script
exiting 7, the post_failure and post_always hooks both receive the value
"1": the `Err` branch loses the real code and `unwrap_or(1)` supplies 1. -/
theorem C4_post_env_not_actual_exit_code :
    ((runJobPipeline demoHookedProject "main" exitSevenOutcomes).1.filter
        isPostLogType).map Block.mainExitEnv = [some "1", some "1"] ∧
    exitSevenOutcomes.main = .ran ⟨"", "", some 7⟩ ∧
    (some "1" : Option String) ≠ some "7" := by
  refine ⟨by decide, rfl, by decide⟩

/-- C8 witness: a run of a fully hooked project in which every subprocess
succeeds. -/
theorem C8_post_hook_selection_witness :
    mainReached demoHookedProject demoOutcomes = true ∧
    C8PostSelection demoHookedProject "main" demoOutcomes :=
  ⟨by decide, C8_post_hook_selection demoHookedProject "main" demoOutcomes (by decide)⟩

/-- C4 witness: the fully hooked project with main exiting 7. -/
theorem C4_post_env_value_witness :
    mainReached demoHookedProject exitSevenOutcomes = true ∧
    ((runJobPipeline demoHookedProject "main" exitSevenOutcomes).1.filter
        isPostLogType).all
      (fun b => b.mainExitEnv ==
        some (toString (mainExitOf demoHookedProject "main" exitSevenOutcomes))) = true :=
  ⟨by decide, C4_post_env_value demoHookedProject "main" exitSevenOutcomes (by decide)⟩

theorem getD_set_ne {α : Type} (l : List α) (i j : Nat) (a d : α) (hij : i ≠ j) :
    (l.set i a).getD j d = l.getD j d := by
  induction l generalizing i j with
  | nil => simp
  | cons x xs ih =>
    cases i with
    | zero =>
      cases j with
      | zero => exact absurd rfl hij
      | succ j => simp
    | succ i =>
      cases j with
      | zero => simp
      | succ j => simpa using ih i j (by omega)

theorem getD_set_self {α : Type} (l : List α) (i : Nat) (a d : α)
    (h : i < l.length) : (l.set i a).getD i d = a := by
  induction l generalizing i with
  | nil => simp at h
  | cons x xs ih =>
    cases i with
    | zero => simp
    | succ i => simpa using ih i (by simpa using h)

theorem phaseAt_lt (s : SysState) (i : Nat) (h : phaseAt s i ≠ .finished) :
    i < s.tasks.length := by
  by_contra hc
  push_neg at hc
  rw [phaseAt, List.getD_eq_default _ _ hc] at h
  exact h rfl

theorem jobAt_set_job_preserve (s : SysState) (i : Nat) (ph : Phase)
    (lo : Option Nat) (j : Nat) :
    jobAt ⟨s.tasks.set i ⟨ph, jobAt s i⟩, lo⟩ j = jobAt s j := by
  rw [jobAt, jobAt]
  by_cases hij : i = j
  · subst hij
    by_cases hlt : i < s.tasks.length
    · rw [getD_set_self _ _ _ _ hlt]
      rfl
    · rw [List.set_eq_of_length_le (by omega)]
      rfl
  · rw [getD_set_ne _ _ _ _ _ hij]
    rfl

theorem jobAt_set_ne (s : SysState) (i : Nat) (t : TaskState) (lo : Option Nat)
    (j : Nat) (h : i ≠ j) : jobAt ⟨s.tasks.set i t, lo⟩ j = jobAt s j := by
  rw [jobAt, jobAt, getD_set_ne _ _ _ _ _ h]

theorem jobAt_set_self (s : SysState) (i : Nat) (t : TaskState) (lo : Option Nat)
    (h : i < s.tasks.length) : jobAt ⟨s.tasks.set i t, lo⟩ i = t.job := by
  rw [jobAt, getD_set_self _ _ _ _ h]

theorem phaseAt_set_ne (s : SysState) (i : Nat) (t : TaskState) (lo : Option Nat)
    (j : Nat) (h : i ≠ j) : phaseAt ⟨s.tasks.set i t, lo⟩ j = phaseAt s j := by
  rw [phaseAt, phaseAt, getD_set_ne _ _ _ _ _ h]

theorem phaseAt_set_self (s : SysState) (i : Nat) (t : TaskState) (lo : Option Nat)
    (h : i < s.tasks.length) : phaseAt ⟨s.tasks.set i t, lo⟩ i = t.phase := by
  rw [phaseAt, getD_set_self _ _ _ _ h]

theorem runInv_reachable : ∀ {s : SysState}, Reachable s → RunInv s := by
  intro s h
  induction h with
  | init =>
    intro i hi
    rw [jobAt, initSys] at hi
    simp at hi
  | step hprev hstep ih =>
    rename_i s1 t1
    cases hstep with
    | spawn =>
      intro j hj
      rw [jobAt] at hj
      by_cases hlt : j < s1.tasks.length
      · rw [List.getD_append _ _ _ _ hlt] at hj
        have hinv := ih j hj
        exact ⟨hinv.1, by rw [phaseAt, List.getD_append _ _ _ _ hlt]; exact hinv.2⟩
      · push_neg at hlt
        rw [List.getD_append_right _ _ _ _ hlt] at hj
        by_cases heq : j - s1.tasks.length = 0
        · rw [heq] at hj
          simp at hj
        · rw [List.getD_eq_default] at hj
          · simp at hj
          · simp
            omega
    | acquire i hLock hPhase =>
      intro j hj
      rw [show jobAt ⟨s1.tasks.set i ⟨Phase.holdsLock, jobAt s1 i⟩, some i⟩ j
          = jobAt s1 j from jobAt_set_job_preserve s1 i Phase.holdsLock (some i) j] at hj
      have hlo := (ih j hj).1
      rw [hLock] at hlo
      exact Option.noConfusion hlo
    | markRunning i hLock hPhase =>
      intro j hj
      have hlt : i < s1.tasks.length := by
        refine phaseAt_lt s1 i ?_
        rw [hPhase]
        simp
      by_cases hij : i = j
      · subst hij
        refine ⟨hLock, ?_⟩
        rw [phaseAt_set_self _ _ _ _ hlt]
      · rw [jobAt_set_ne _ _ _ _ _ hij] at hj
        have hlo := (ih j hj).1
        rw [hLock] at hlo
        exact absurd (Option.some.inj hlo) hij
    | abortEarly i hLock hPhase =>
      intro j hj
      rw [show jobAt ⟨s1.tasks.set i ⟨Phase.finished, jobAt s1 i⟩, s1.lockOwner⟩ j
          = jobAt s1 j from jobAt_set_job_preserve s1 i Phase.finished s1.lockOwner j] at hj
      have h2 := ih j hj
      have hji : j = i := by
        have hlo := h2.1
        rw [hLock] at hlo
        exact (Option.some.inj hlo).symm
      subst hji
      rw [hPhase] at h2
      exact absurd h2.2.symm (by simp)
    | complete i st hLock hPhase hTerminal =>
      intro j hj
      have hlt : i < s1.tasks.length := by
        refine phaseAt_lt s1 i ?_
        rw [hPhase]
        simp
      by_cases hij : i = j
      · subst hij
        rw [jobAt_set_self _ _ _ _ hlt] at hj
        rcases hTerminal with ht | ht <;> rw [ht] at hj <;> exact JobStatus.noConfusion hj
      · rw [jobAt_set_ne _ _ _ _ _ hij] at hj
        have hlo := (ih j hj).1
        rw [hLock] at hlo
        exact absurd (Option.some.inj hlo) hij
    | release i hLock hPhase =>
      intro j hj
      rw [show jobAt ⟨s1.tasks, none⟩ j = jobAt s1 j from rfl] at hj
      have h2 := ih j hj
      have hji : j = i := by
        have hlo := h2.1
        rw [hLock] at hlo
        exact (Option.some.inj hlo).symm
      subst hji
      rw [hPhase] at h2
      exact absurd h2.2.symm (by simp)

/-- C9: in every reachable state of the webhook system, no two distinct
jobs are simultaneously `Running`: a task marks its job running only while
holding `job_execution_lock` and writes the terminal status before the
guard drops. -/
theorem C9_at_most_one_running_job :
    ∀ (s : SysState) (i j : Nat), Reachable s →
      jobAt s i = .running → jobAt s j = .running → i = j := by
  intro s i j hr hi hj
  have h1 := (runInv_reachable hr) i hi
  have h2 := (runInv_reachable hr) j hj
  rw [h1.1] at h2
  exact Option.some.inj h2.1

/-- C9 witness: the state after one spawn, acquire and running-update is
reachable and its only running job is its own witness of uniqueness. -/
theorem C9_at_most_one_running_job_witness :
    jobAt ⟨[⟨Phase.markedRunning, JobStatus.running⟩], some 0⟩ 0 = JobStatus.running ∧
    (0 : Nat) = 0 := by
  have h1 : Reachable initSys := Reachable.init
  have h2 : Reachable ⟨[⟨Phase.notStarted, JobStatus.queued⟩], none⟩ :=
    Reachable.step h1 (WebhookStep.spawn initSys)
  have h3 : Reachable ⟨[⟨Phase.holdsLock, JobStatus.queued⟩], some 0⟩ :=
    Reachable.step h2 (WebhookStep.acquire _ 0 rfl rfl)
  have h4 : Reachable ⟨[⟨Phase.markedRunning, JobStatus.running⟩], some 0⟩ :=
    Reachable.step h3 (WebhookStep.markRunning _ 0 rfl rfl)
  exact ⟨rfl, C9_at_most_one_running_job _ 0 0 h4 rfl rfl⟩

end SimpleGitCicd
